import Mathlib

/-!
# Verification of the TinyPoint dereference-table hierarchy

Shallow embedding of `src/TinyPoint/building_blocks.py`,
`src/TinyPoint/fixed_size_table.py` and `src/TinyPoint/variable_size_table.py`.

Modelling conventions, used throughout:

* Keys are opaque and only ever hashed (with a distinct salt per structural
  role) or compared for equality.  Each structural hash role
  (`_hash_to_int(b"lbt:" + kb)`, `b"p2c1:"`, `b"p2c2:"`, `b"vst_container:"`)
  is therefore modelled as an arbitrary function `K → ℕ` stored in the table
  at construction time, exactly as the Python tables close over their salt.
* Python's unbounded `int` is `ℕ` for pointers/indices and `ℤ` for the
  occupancy counters and item counts that are decremented (so that the model
  does not saturate at zero where Python would go negative).
* Python lists are Lean `List`s; reads are `List.getD` (all reads performed
  by the code on well-formed tables are in range), writes are `List.set`.
* A Python function returning `None` on failure becomes `Option`;
  a function raising `KeyError`/`AllocationFailed`/`IndexError`/`RuntimeError`
  returns `Except TPErr` with the corresponding error kind.
* Quantities the Python code computes with floating point at construction
  time (`bucket_size` from `delta`, the slot splits from `n`) enter the
  model as explicit numeric parameters of the constructors; theorems that
  depend on a concrete value also prove, over `ℝ`, that the construction
  formula yields that value (e.g. `delta = 0.3` gives `bucket_size = 20`).
  `math.ceil(math.log2(b))` on a positive integer is `clog2 b` (a fuel-based
  computable form of `Nat.clog 2 b`, see `clog2_eq`) and `int(math.log2(c))`
  is `log2 c` (`= Nat.log 2 c`, see `log2_eq`); both are exact for the
  magnitudes the code constructs.
-/

namespace TinyPoint

/-- Failure kinds of the TinyPoint operations: the three `KeyError`
families raised by dereference/free (`"Invalid ..."`, `"... not allocated"`,
`"Ownership mismatch ..."`), the `AllocationFailed` exception, Python
`IndexError` from an out-of-range list subscript, and the `RuntimeError`
invariant violations in `_Container.allocate`. -/
inductive TPErr : Type
  | invalidPointer
  | notAllocated
  | ownershipMismatch
  | allocationFailed
  | indexError
  | runtimeError
  deriving DecidableEq

/-- `math.ceil(num_slots / bucket_size)` for positive integers
(the float division the Python code performs is exact at these magnitudes). -/
def ceilDiv (a b : ℕ) : ℕ := (a + b - 1) / b

/-- Fuel-driven binary logarithm (the fuel makes it structurally recursive,
hence evaluable by the kernel; `log2fuel_eq` identifies it with `Nat.log 2`). -/
def log2fuel : ℕ → ℕ → ℕ
  | 0, _ => 0
  | fuel + 1, n => if n ≤ 1 then 0 else log2fuel fuel (n / 2) + 1

/-- `int(math.log2(n))` on a positive integer: the floor base-2 logarithm. -/
def log2 (n : ℕ) : ℕ := log2fuel n n

/-- `math.ceil(math.log2(n))` on a positive integer: the ceiling base-2
logarithm (for `n ≥ 2` it equals `log2 (n - 1) + 1`). -/
def clog2 (n : ℕ) : ℕ := if n ≤ 1 then 0 else log2 (n - 1) + 1

theorem log2fuel_eq : ∀ (fuel n : ℕ), n ≤ fuel → log2fuel fuel n = Nat.log 2 n := by
  intro fuel
  induction fuel with
  | zero => intro n hn; interval_cases n; simp [log2fuel]
  | succ m ih =>
    intro n hn
    rw [log2fuel]
    by_cases h1 : n ≤ 1
    · rw [if_pos h1]
      interval_cases n <;> simp
    · rw [if_neg h1]
      have h2 : 2 ≤ n := by omega
      have hrec : log2fuel m (n / 2) = Nat.log 2 (n / 2) := ih _ (by omega)
      have hpos : 0 < Nat.log 2 n := Nat.log_pos (by norm_num) h2
      have hdiv : Nat.log 2 (n / 2) = Nat.log 2 n - 1 := Nat.log_div_base 2 n
      omega

theorem log2_eq (n : ℕ) : log2 n = Nat.log 2 n := log2fuel_eq n n le_rfl

theorem clog2_eq (n : ℕ) : clog2 n = Nat.clog 2 n := by
  rw [clog2]
  by_cases h1 : n ≤ 1
  · rw [if_pos h1]; interval_cases n <;> simp
  · rw [if_neg h1, log2_eq]
    have h2 : 2 ≤ n := by omega
    have hle : Nat.clog 2 n ≤ Nat.log 2 (n - 1) + 1 := by
      rw [← Nat.le_pow_iff_clog_le (by norm_num)]
      have := Nat.lt_pow_succ_log_self (b := 2) (by norm_num) (n - 1)
      omega
    have hlt : Nat.log 2 (n - 1) < Nat.clog 2 n := by
      rw [← Nat.pow_lt_iff_lt_clog (by norm_num)]
      have := Nat.pow_log_le_self 2 (x := n - 1) (by omega)
      omega
    omega

/-- First index `i` (with `i < count`) such that `l[start + i]` is `None`:
the linear first-empty-slot scan
`for i in range(count): if l[start + i] is None: ...`
shared by `LoadBalancingTable.allocate`, `PowerOfTwoChoicesDerefTable.allocate`
and `_Container.allocate`'s overflow-array scan. -/
def firstNoneIdx {α : Type} (l : List (Option α)) (start : ℕ) : ℕ → Option ℕ
  | 0 => none
  | count + 1 =>
    match l.getD start none with
    | none => some 0
    | some _ => (firstNoneIdx l (start + 1) count).map (· + 1)

theorem firstNoneIdx_some {α : Type} {l : List (Option α)} {start count i : ℕ}
    (h : firstNoneIdx l start count = some i) :
    i < count ∧ l.getD (start + i) none = none ∧
      ∀ j < i, l.getD (start + j) none ≠ none := by
  induction count generalizing start i with
  | zero => simp [firstNoneIdx] at h
  | succ n ih =>
    rw [firstNoneIdx] at h
    cases hg : l.getD start none with
    | none =>
      rw [hg] at h
      simp only [Option.some.injEq] at h
      subst h
      exact ⟨Nat.succ_pos n, by simpa using hg, fun j hj => absurd hj (Nat.not_lt_zero j)⟩
    | some a =>
      rw [hg] at h
      cases hrec : firstNoneIdx l (start + 1) n with
      | none => rw [hrec] at h; simp at h
      | some i0 =>
        rw [hrec] at h
        have hi : i0 + 1 = i := by simpa using h
        subst hi
        obtain ⟨h1, h2, h3⟩ := ih hrec
        refine ⟨Nat.succ_lt_succ h1, ?_, ?_⟩
        · rw [show start + (i0 + 1) = start + 1 + i0 from by omega]
          exact h2
        · intro j hj
          cases j with
          | zero => rw [Nat.add_zero, hg]; simp
          | succ j0 =>
            have := h3 j0 (Nat.lt_of_succ_lt_succ hj)
            rw [show start + (j0 + 1) = start + 1 + j0 from by omega]
            exact this

theorem firstNoneIdx_none {α : Type} {l : List (Option α)} {start count : ℕ}
    (h : firstNoneIdx l start count = none) :
    ∀ j < count, l.getD (start + j) none ≠ none := by
  induction count generalizing start with
  | zero => intro j hj; exact absurd hj (Nat.not_lt_zero j)
  | succ n ih =>
    rw [firstNoneIdx] at h
    cases hg : l.getD start none with
    | none => rw [hg] at h; simp at h
    | some a =>
      rw [hg] at h
      intro j hj
      cases j with
      | zero => rw [Nat.add_zero, hg]; simp
      | succ j0 =>
        cases hrec : firstNoneIdx l (start + 1) n with
        | none =>
          have := ih hrec j0 (Nat.lt_of_succ_lt_succ hj)
          rw [show start + (j0 + 1) = start + 1 + j0 from by omega]
          exact this
        | some i0 => rw [hrec] at h; simp at h

theorem firstNoneIdx_isSome {α : Type} {l : List (Option α)} {start count j : ℕ}
    (hj : j < count) (hnone : l.getD (start + j) none = none) :
    (firstNoneIdx l start count).isSome := by
  cases h : firstNoneIdx l start count with
  | none => exact absurd hnone (firstNoneIdx_none h j hj)
  | some i => rfl

/-- `getD` after `set` at the written position. -/
theorem getD_set_self {α : Type} {l : List α} {i : ℕ} (a d : α) (h : i < l.length) :
    (l.set i a).getD i d = a := by
  rw [List.getD_eq_getElem _ _ (by simpa using h)]
  simp [List.getElem_set_self]

/-- `getD` after `set` at a different position. -/
theorem getD_set_ne {α : Type} {l : List α} {i j : ℕ} (a d : α) (h : i ≠ j) :
    (l.set i a).getD j d = l.getD j d := by
  rcases Nat.lt_or_ge j l.length with hj | hj
  · rw [List.getD_eq_getElem _ _ (by simpa using hj), List.getD_eq_getElem _ _ hj]
    exact List.getElem_set_ne (by simpa using h) ..
  · rw [List.getD_eq_default _ _ (by simpa using hj), List.getD_eq_default _ _ hj]

/-- A `getD` that returns a non-default value reads in range. -/
theorem lt_length_of_getD_eq_some {α : Type} {l : List (Option α)} {i : ℕ} {a : Option α}
    (h : l.getD i none = a) (ha : a.isSome) : i < l.length := by
  by_contra hge
  rw [List.getD_eq_default _ _ (Nat.le_of_not_lt hge)] at h
  subst h
  simp at ha

/-! ## Building Block 1: `LoadBalancingTable`

`src/TinyPoint/building_blocks.py`, lines 12–107.  The store is partitioned
into `num_buckets` buckets of `bucket_size` slots; a key hashes to one
bucket; the tiny pointer is the slot index within that bucket.

Construction (`__init__`, lines 21–42): `bucket_size` is
`max(2, ceil((1/delta^2) * log2(1/delta)))`, computed in floating point, so
it enters the model as the parameter `bucket_size`; `num_buckets`,
the backing length `n = num_buckets * bucket_size` and the stores are
modelled exactly. -/

structure LoadBalancingTable (K V : Type) : Type where
  bucket_size : ℕ
  num_buckets : ℕ
  hashK : K → ℕ
  store : List (Option V)
  owner_info : List (Option (K × ℕ))

namespace LoadBalancingTable

variable {K V : Type} [DecidableEq K]

/-- `self.p_bits = math.ceil(math.log2(self.bucket_size))` (line 42). -/
def p_bits (t : LoadBalancingTable K V) : ℕ := clog2 t.bucket_size

/-- `LoadBalancingTable.__init__` (lines 21–42) minus the float formula for
`bucket_size`, which is passed in.  `num_buckets = ceil(num_slots/bucket_size)`
bumped to 1 when zero; backing length `n = num_buckets * bucket_size`. -/
def init (num_slots bucket_size : ℕ) (hashK : K → ℕ) : LoadBalancingTable K V :=
  let nb0 := ceilDiv num_slots bucket_size
  let nb := if nb0 = 0 then 1 else nb0
  { bucket_size := bucket_size
    num_buckets := nb
    hashK := hashK
    store := List.replicate (nb * bucket_size) none
    owner_info := List.replicate (nb * bucket_size) none }

/-- `_get_bucket_index` (lines 44–47): salted hash of the key mod `num_buckets`. -/
def bucketIndex (t : LoadBalancingTable K V) (k : K) : ℕ :=
  t.hashK k % t.num_buckets

/-- `allocate` (lines 49–65): scan the key's bucket for the first free slot;
on success store the value, record `(k, p)` as owner and return the
within-bucket index `p`; return `None` (without touching the stores) when
the bucket is full. -/
def allocate (t : LoadBalancingTable K V) (k : K) (v : V) :
    Option (ℕ × LoadBalancingTable K V) :=
  let start := t.bucketIndex k * t.bucket_size
  match firstNoneIdx t.owner_info start t.bucket_size with
  | none => none
  | some i =>
    some (i, { t with
      store := t.store.set (start + i) (some v)
      owner_info := t.owner_info.set (start + i) (some (k, i)) })

/-- `dereference` (lines 67–86): validate `0 ≤ p < bucket_size`, recompute the
bucket, fail on an empty slot or an owner mismatch, otherwise return the
stored value. -/
def dereference (t : LoadBalancingTable K V) (k : K) (p : ℕ) :
    Except TPErr (Option V) :=
  if p < t.bucket_size then
    let pos := t.bucketIndex k * t.bucket_size + p
    match t.owner_info.getD pos none with
    | none => .error .notAllocated
    | some (owner, stored_p) =>
      if owner = k ∧ stored_p = p then .ok (t.store.getD pos none)
      else .error .ownershipMismatch
  else .error .invalidPointer

/-- `free` (lines 88–107): same validation and addressing as `dereference`,
then clear both the value and the owner record. -/
def free (t : LoadBalancingTable K V) (k : K) (p : ℕ) :
    Except TPErr (LoadBalancingTable K V) :=
  if p < t.bucket_size then
    let pos := t.bucketIndex k * t.bucket_size + p
    match t.owner_info.getD pos none with
    | none => .error .notAllocated
    | some (owner, stored_p) =>
      if owner = k ∧ stored_p = p then
        .ok { t with
          store := t.store.set pos none
          owner_info := t.owner_info.set pos none }
      else .error .ownershipMismatch
  else .error .invalidPointer

end LoadBalancingTable

/-! ## Building Block 2: `PowerOfTwoChoicesDerefTable`

`src/TinyPoint/building_blocks.py`, lines 109–223.  A key hashes to two
bucket candidates; allocation goes to the lower-occupancy one (ties favour
the first); the tiny pointer is `(choice_bit << p_slot_bits) | slot_index`.
Per-bucket occupancy counters are Python ints, modelled as `ℤ` so that the
unconditional decrement in `free` is not saturated.

Construction (`__init__`, lines 117–139): `bucket_size` is
`max(2, ceil(log2(log2(num_slots))))`, computed in floating point, so it is
a parameter; `num_buckets = max(2, ceil(num_slots/bucket_size))`,
`p_slot_bits = ceil(log2(bucket_size)) = Nat.clog 2 bucket_size` and
`p_slot_mask = 2^p_slot_bits - 1` are modelled exactly. -/

structure PowerOfTwoChoicesDerefTable (K V : Type) : Type where
  bucket_size : ℕ
  num_buckets : ℕ
  hash1 : K → ℕ
  hash2 : K → ℕ
  store : List (Option V)
  owner_info : List (Option (K × ℕ))
  bucket_occupancy : List ℤ

namespace PowerOfTwoChoicesDerefTable

variable {K V : Type} [DecidableEq K]

/-- `self.p_slot_bits = math.ceil(math.log2(self.bucket_size))` (line 138). -/
def p_slot_bits (t : PowerOfTwoChoicesDerefTable K V) : ℕ := clog2 t.bucket_size

/-- `self.p_slot_mask = (1 << self.p_slot_bits) - 1` (line 139). -/
def p_slot_mask (t : PowerOfTwoChoicesDerefTable K V) : ℕ := (1 <<< t.p_slot_bits) - 1

/-- `PowerOfTwoChoicesDerefTable.__init__` (lines 117–139) minus the float
formula for `bucket_size`, which is passed in. -/
def init (num_slots bucket_size : ℕ) (hash1 hash2 : K → ℕ) :
    PowerOfTwoChoicesDerefTable K V :=
  let nb0 := ceilDiv num_slots bucket_size
  let nb := if nb0 < 2 then 2 else nb0
  { bucket_size := bucket_size
    num_buckets := nb
    hash1 := hash1
    hash2 := hash2
    store := List.replicate (nb * bucket_size) none
    owner_info := List.replicate (nb * bucket_size) none
    bucket_occupancy := List.replicate nb 0 }

/-- `_get_bucket_indices` (lines 141–148): two salted hashes mod
`num_buckets`; when they collide the second is perturbed to `h1 + 1`. -/
def bucketIndices (t : PowerOfTwoChoicesDerefTable K V) (k : K) : ℕ × ℕ :=
  let h1 := t.hash1 k % t.num_buckets
  let h2 := t.hash2 k % t.num_buckets
  if h1 = h2 then (h1, (h1 + 1) % t.num_buckets) else (h1, h2)

/-- The bucket `allocate` places into, and its choice bit (lines 155–163):
the lower-occupancy candidate, ties favouring the first. -/
def chosenBucket (t : PowerOfTwoChoicesDerefTable K V) (k : K) : ℕ × ℕ :=
  let (b1, b2) := t.bucketIndices k
  if t.bucket_occupancy.getD b1 0 ≤ t.bucket_occupancy.getD b2 0 then (b1, 0)
  else (b2, 1)

/-- `allocate` (lines 150–180): pick the lower-occupancy candidate bucket,
fail if it is at capacity, else place the value in its first empty slot,
record `(k, p)` with `p = (choice << p_slot_bits) | slot`, and bump the
bucket's occupancy counter.  The final `return None` after the scan (line
180, "Should not be reached if occupancy is correct") is the scan-failure
branch. -/
def allocate (t : PowerOfTwoChoicesDerefTable K V) (k : K) (v : V) :
    Option (ℕ × PowerOfTwoChoicesDerefTable K V) :=
  let (chosen, choice) := t.chosenBucket k
  if (t.bucket_size : ℤ) ≤ t.bucket_occupancy.getD chosen 0 then none
  else
    let start := chosen * t.bucket_size
    match firstNoneIdx t.owner_info start t.bucket_size with
    | none => none
    | some i =>
      let p := (choice <<< t.p_slot_bits) ||| i
      some (p, { t with
        store := t.store.set (start + i) (some v)
        owner_info := t.owner_info.set (start + i) (some (k, p))
        bucket_occupancy :=
          t.bucket_occupancy.set chosen (t.bucket_occupancy.getD chosen 0 + 1) })

/-- `_decode_pointer` (lines 182–193): split the pointer into choice bit and
slot, validate the slot, recompute the two candidate buckets and return the
absolute store position. -/
def decodePointer (t : PowerOfTwoChoicesDerefTable K V) (k : K) (p : ℕ) :
    Except TPErr ℕ :=
  let choice := p >>> t.p_slot_bits
  let slot := p &&& t.p_slot_mask
  if t.bucket_size ≤ slot then .error .invalidPointer
  else
    let (b1, b2) := t.bucketIndices k
    let chosen := if choice = 0 then b1 else b2
    .ok (chosen * t.bucket_size + slot)

/-- `dereference` (lines 195–206). -/
def dereference (t : PowerOfTwoChoicesDerefTable K V) (k : K) (p : ℕ) :
    Except TPErr (Option V) :=
  match t.decodePointer k p with
  | .error e => .error e
  | .ok pos =>
    match t.owner_info.getD pos none with
    | none => .error .notAllocated
    | some (owner, stored_p) =>
      if owner = k ∧ stored_p = p then .ok (t.store.getD pos none)
      else .error .ownershipMismatch

/-- `free` (lines 208–223): clear the slot and decrement the occupancy
counter of the bucket `pos // bucket_size`. -/
def free (t : PowerOfTwoChoicesDerefTable K V) (k : K) (p : ℕ) :
    Except TPErr (PowerOfTwoChoicesDerefTable K V) :=
  match t.decodePointer k p with
  | .error e => .error e
  | .ok pos =>
    match t.owner_info.getD pos none with
    | none => .error .notAllocated
    | some (owner, stored_p) =>
      if owner = k ∧ stored_p = p then
        let bucket_idx := pos / t.bucket_size
        .ok { t with
          store := t.store.set pos none
          owner_info := t.owner_info.set pos none
          bucket_occupancy :=
            t.bucket_occupancy.set bucket_idx
              (t.bucket_occupancy.getD bucket_idx 0 - 1) }
      else .error .ownershipMismatch

end PowerOfTwoChoicesDerefTable

/-! ## `FixedSizeDerefTable`

`src/TinyPoint/fixed_size_table.py`.  A primary `LoadBalancingTable` plus a
secondary `PowerOfTwoChoicesDerefTable` absorbing its overflow; the top bit
of the composite pointer names the origin table.

Construction (lines 18–45): the float-computed slot split
(`secondary_slots = ceil(n*delta/2)`, `primary_slots = n - secondary_slots`)
and the float-computed sub-table bucket sizes enter through the sub-table
constructors; `primary_p_bits`, `secondary_p_bits` and `max_p_bits`
(lines 41–45) are modelled exactly as derived quantities. -/

structure FixedSizeDerefTable (K V : Type) : Type where
  primary : LoadBalancingTable K V
  secondary : PowerOfTwoChoicesDerefTable K V

namespace FixedSizeDerefTable

variable {K V : Type} [DecidableEq K]

/-- `self.primary_p_bits = self.primary.p_bits` (line 41). -/
def primary_p_bits (t : FixedSizeDerefTable K V) : ℕ := t.primary.p_bits

/-- `self.secondary_p_bits = 1 + self.secondary.p_slot_bits` (line 42). -/
def secondary_p_bits (t : FixedSizeDerefTable K V) : ℕ := 1 + t.secondary.p_slot_bits

/-- `self.max_p_bits = max(self.primary_p_bits, self.secondary_p_bits) + 1`
(line 45). -/
def max_p_bits (t : FixedSizeDerefTable K V) : ℕ :=
  max t.primary_p_bits t.secondary_p_bits + 1

/-- `allocate` (lines 47–66): try the primary table (pointer passed through,
MSB 0), fall back to the secondary (pointer gets the origin MSB set), and
raise `AllocationFailed` when both are exhausted. -/
def allocate (t : FixedSizeDerefTable K V) (k : K) (v : V) :
    Except TPErr (ℕ × FixedSizeDerefTable K V) :=
  match t.primary.allocate k v with
  | some (p, primary2) => .ok (p, { t with primary := primary2 })
  | none =>
    match t.secondary.allocate k v with
    | some (p, secondary2) =>
      .ok ((1 <<< (t.max_p_bits - 1)) ||| p, { t with secondary := secondary2 })
    | none => .error .allocationFailed

/-- `_decode_pointer` (lines 68–78): `(is_secondary, local pointer)`. -/
def decodePointer (t : FixedSizeDerefTable K V) (p : ℕ) : Bool × ℕ :=
  if p >>> (t.max_p_bits - 1) = 1 then
    (true, p &&& ((1 <<< (t.max_p_bits - 1)) - 1))
  else (false, p)

/-- `dereference` (lines 80–85): delegate on the origin bit. -/
def dereference (t : FixedSizeDerefTable K V) (k : K) (p : ℕ) :
    Except TPErr (Option V) :=
  let (is_secondary, p_val) := t.decodePointer p
  if is_secondary then t.secondary.dereference k p_val
  else t.primary.dereference k p_val

/-- `free` (lines 87–92): delegate on the origin bit. -/
def free (t : FixedSizeDerefTable K V) (k : K) (p : ℕ) :
    Except TPErr (FixedSizeDerefTable K V) :=
  let (is_secondary, p_val) := t.decodePointer p
  if is_secondary then
    (t.secondary.free k p_val).map fun s => { t with secondary := s }
  else
    (t.primary.free k p_val).map fun s => { t with primary := s }

end FixedSizeDerefTable

/-! ## `_Container` and `VariableSizeDerefTable`

`src/TinyPoint/variable_size_table.py`.  A `_Container` manages a cascade of
shrinking `LoadBalancingTable` levels (each at `delta = 0.5`, hence
`bucket_size = max(2, ceil((1/0.5^2)*log2(1/0.5))) = max(2, ceil(4)) = 4`,
exact even in floating point) plus a same-sized overflow array per level.
All levels hash with the same `b"lbt:"` salt, so they share one hash
function.  `num_items` and the `level_occupancy` counters are Python ints
that get decremented, hence `ℤ`. -/

/-- Outcome of `_Container.allocate` (lines 35–65): a `(level, p_level)`
pair together with the updated container, `None` when the container is at
capacity, or one of the two `RuntimeError` invariant violations. -/
inductive AllocResult (α : Type) : Type
  | ok (a : α)
  | full
  | fatal

/-- The `s = capacity; for _ in range(num_levels): if s == 0: break; ...;
s //= 2` loop of `_Container.__init__` (lines 23–31): the list of per-level
slot counts. -/
def containerLevelSlots : ℕ → ℕ → List ℕ
  | _, 0 => []
  | s, n + 1 => if s = 0 then [] else s :: containerLevelSlots (s / 2) n

structure Container (K V : Type) : Type where
  capacity : ℕ
  num_items : ℤ
  levels : List (LoadBalancingTable K V)
  overflow_arrays : List (List (Option (K × V)))
  level_slots : List ℕ
  level_occupancy : List ℤ

namespace Container

variable {K V : Type} [DecidableEq K]

/-- `_Container.__init__` (lines 14–33).
`num_levels = int(math.log2(capacity)) + 1 = Nat.log 2 capacity + 1`;
each level of size `s` is `LoadBalancingTable(num_slots=s, delta=0.5)`,
i.e. bucket size 4, paired with an overflow array of `s` cells;
`level_occupancy = [0] * num_levels`. -/
def init (capacity : ℕ) (hashK : K → ℕ) : Container K V :=
  let num_levels := log2 capacity + 1
  let slots := containerLevelSlots capacity num_levels
  { capacity := capacity
    num_items := 0
    levels := slots.map (fun s => LoadBalancingTable.init s 4 hashK)
    overflow_arrays := slots.map (fun s => List.replicate s none)
    level_slots := slots
    level_occupancy := List.replicate num_levels 0 }

/-- The `for i in range(len(self.levels))` loop of `_Container.allocate`
(lines 41–62), entered with `i = 0` and fuel `len(self.levels)`:
increment level `i`'s occupancy counter, try level `i`'s table; on success
return `(i, p)`; on failure, if the next level is already saturated
(occupancy of level `i+1` at least its slot count — both read as 0 past the
last level), spill into level `i`'s overflow array's first empty cell,
returning `(i | (1 << 31), j)` (MSB of the level word is the overflow
flag), with `RuntimeError` if that array is full; otherwise continue with
level `i+1`.  Fuel exhaustion is the fall-through `RuntimeError` after the
loop (line 65). -/
def allocLoop (k : K) (v : V) :
    ℕ → ℕ → Container K V → AllocResult ((ℕ × ℕ) × Container K V)
  | _, 0, _ => .fatal
  | i, fuel + 1, c =>
    if hi : i < c.levels.length then
      let c1 := { c with
        level_occupancy := c.level_occupancy.set i (c.level_occupancy.getD i 0 + 1) }
      match (c.levels.get ⟨i, hi⟩).allocate k v with
      | some (p, lvl2) => .ok ((i, p), { c1 with levels := c1.levels.set i lvl2 })
      | none =>
        let next_occ : ℤ :=
          if i + 1 < c.levels.length then c1.level_occupancy.getD (i + 1) 0 else 0
        let next_slots : ℕ :=
          if i + 1 < c.levels.length then c1.level_slots.getD (i + 1) 0 else 0
        if (next_slots : ℤ) ≤ next_occ then
          let arr := c1.overflow_arrays.getD i []
          match firstNoneIdx arr 0 arr.length with
          | some j => .ok ((i ||| (1 <<< 31), j),
              { c1 with overflow_arrays :=
                  c1.overflow_arrays.set i (arr.set j (some (k, v))) })
          | none => .fatal
        else allocLoop k v (i + 1) fuel c1
    else .fatal

/-- `_Container.allocate` (lines 35–65): reject when `num_items` has reached
`capacity`, otherwise bump `num_items` and run the level loop. -/
def allocate (c : Container K V) (k : K) (v : V) :
    AllocResult ((ℕ × ℕ) × Container K V) :=
  if (c.capacity : ℤ) ≤ c.num_items then .full
  else allocLoop k v 0 c.levels.length { c with num_items := c.num_items + 1 }

/-- Whether the level word of a container pointer carries the overflow flag:
`(level & (1 << 31)) != 0` (lines 70, 87). -/
def isOverflow (level : ℕ) : Prop := level &&& (1 <<< 31) ≠ 0

instance (level : ℕ) : Decidable (isOverflow level) := by
  unfold isOverflow; infer_instance

/-- `level & ~(1 << 31)` (lines 71, 88).  Python's `~` is on unbounded
ints, so this clears bit 31 keeping all other bits; every level word the
repository forms is below `2^32`, where it agrees with masking by
`2^31 - 1`. -/
def levelIdx (level : ℕ) : ℕ := level &&& ((1 <<< 31) - 1)

/-- `_Container.dereference` (lines 67–82): decode overflow flag and level
index; the overflow path checks the overflow cell's owner key; the normal
path delegates to that level's table.  Out-of-range list subscripts raise
`IndexError` in Python; an out-of-range `level_idx` is modelled by reading
the empty list (`getD li []`), whose every `p_level` is then out of range,
giving the same `IndexError` outcome. -/
def dereference (c : Container K V) (k : K) (pc : ℕ × ℕ) :
    Except TPErr (Option V) :=
  let level := pc.1
  let p_level := pc.2
  let li := levelIdx level
  if isOverflow level then
    let arr := c.overflow_arrays.getD li []
    if p_level < arr.length then
      match arr.getD p_level none with
      | none => .error .notAllocated
      | some (owner, value) =>
        if owner = k then .ok (some value) else .error .ownershipMismatch
    else .error .indexError
  else
    if hL : li < c.levels.length then
      (c.levels.get ⟨li, hL⟩).dereference k p_level
    else .error .indexError

/-- The bookkeeping at the end of `_Container.free` (lines 101–103):
decrement `num_items` and every level-occupancy counter from level 0
through the freed level inclusive. -/
def postFree (c : Container K V) (li : ℕ) : Container K V :=
  { c with
    num_items := c.num_items - 1
    level_occupancy :=
      c.level_occupancy.mapIdx fun i x => if i ≤ li then x - 1 else x }

/-- `_Container.free` (lines 84–103). -/
def free (c : Container K V) (k : K) (pc : ℕ × ℕ) :
    Except TPErr (Container K V) :=
  let level := pc.1
  let p_level := pc.2
  let li := levelIdx level
  if isOverflow level then
    let arr := c.overflow_arrays.getD li []
    if p_level < arr.length then
      match arr.getD p_level none with
      | none => .error .notAllocated
      | some (owner, _) =>
        if owner = k then
          .ok (postFree
            { c with overflow_arrays :=
                c.overflow_arrays.set li (arr.set p_level none) } li)
        else .error .ownershipMismatch
    else .error .indexError
  else
    if hL : li < c.levels.length then
      ((c.levels.get ⟨li, hL⟩).free k p_level).map fun lvl2 =>
        postFree { c with levels := c.levels.set li lvl2 } li
    else .error .indexError

end Container

/-! ### `VariableSizeDerefTable`

Lines 106–158.  Keys are partitioned across `num_containers` containers by
a salted hash; the global pointer packs
`(container_idx << 48) | (level << 32) | p_level`.
`container_capacity = max(16, int(4*log2(n)))` and
`num_containers = ceil(n/log2(n))` are floating-point construction
quantities and enter as parameters (theorems about a concrete `n` also
state their values). -/

structure VariableSizeDerefTable (K V : Type) : Type where
  n_items : ℕ
  container_capacity : ℕ
  num_containers : ℕ
  hashC : K → ℕ
  containers : List (Container K V)

/-- The packing of a global pointer performed by
`VariableSizeDerefTable.allocate` (line 139):
`(container_idx << 48) | (level << 32) | p_level`. -/
def vstPack (container_idx level p_level : ℕ) : ℕ :=
  (container_idx <<< 48) ||| (level <<< 32) ||| p_level

/-- `VariableSizeDerefTable._decode_pointer` (lines 141–146):
`container_idx = p >> 48`, `level = (p >> 32) & 0xFFFF`,
`p_level = p & 0xFFFFFFFF`. -/
def vstDecodePointer (p : ℕ) : ℕ × ℕ × ℕ :=
  (p >>> 48, (p >>> 32) &&& 0xFFFF, p &&& 0xFFFFFFFF)

namespace VariableSizeDerefTable

variable {K V : Type} [DecidableEq K]

/-- `VariableSizeDerefTable.__init__` (lines 111–121) minus the two
floating-point formulas, which are passed in: it performs no validation of
any kind and builds `num_containers` fresh containers of
`container_capacity`. -/
def init (n container_capacity num_containers : ℕ) (hashK hashC : K → ℕ) :
    VariableSizeDerefTable K V :=
  { n_items := n
    container_capacity := container_capacity
    num_containers := num_containers
    hashC := hashC
    containers :=
      List.replicate num_containers (Container.init container_capacity hashK) }

/-- `_get_container_index` (lines 123–125). -/
def containerIndex (t : VariableSizeDerefTable K V) (k : K) : ℕ :=
  t.hashC k % t.num_containers

/-- `allocate` (lines 127–139): delegate to the key's container, raise
`AllocationFailed` when it is full, and pack the global pointer. -/
def allocate (t : VariableSizeDerefTable K V) (k : K) (v : V) :
    Except TPErr (ℕ × VariableSizeDerefTable K V) :=
  let ci := t.containerIndex k
  if hc : ci < t.containers.length then
    match (t.containers.get ⟨ci, hc⟩).allocate k v with
    | .full => .error .allocationFailed
    | .fatal => .error .runtimeError
    | .ok ((level, p_level), c2) =>
      .ok (vstPack ci level p_level, { t with containers := t.containers.set ci c2 })
  else .error .indexError

/-- `dereference` (lines 148–152): decode, validate the container index,
delegate. -/
def dereference (t : VariableSizeDerefTable K V) (k : K) (p : ℕ) :
    Except TPErr (Option V) :=
  let d := vstDecodePointer p
  if t.num_containers ≤ d.1 then .error .invalidPointer
  else if hc : d.1 < t.containers.length then
    (t.containers.get ⟨d.1, hc⟩).dereference k d.2
  else .error .indexError

/-- `free` (lines 154–158): decode, validate the container index, delegate. -/
def free (t : VariableSizeDerefTable K V) (k : K) (p : ℕ) :
    Except TPErr (VariableSizeDerefTable K V) :=
  let d := vstDecodePointer p
  if t.num_containers ≤ d.1 then .error .invalidPointer
  else if hc : d.1 < t.containers.length then
    ((t.containers.get ⟨d.1, hc⟩).free k d.2).map fun c2 =>
      { t with containers := t.containers.set d.1 c2 }
  else .error .indexError

end VariableSizeDerefTable

/-! ## Bit-packing arithmetic -/

/-- Packing a field above `n` low bits by shift-or, with the low field in
range, is plain positional arithmetic. -/
theorem shiftLeft_or_eq_add {c q n : ℕ} (hq : q < 2 ^ n) :
    c <<< n ||| q = 2 ^ n * c + q := by
  apply Nat.eq_of_testBit_eq
  intro j
  rw [Nat.testBit_lor, Nat.testBit_shiftLeft, Nat.testBit_mul_pow_two_add c hq j]
  by_cases hj : j < n
  · simp [hj, Nat.not_le.mpr hj]
  · have hq2 : q < 2 ^ j :=
      lt_of_lt_of_le hq (Nat.pow_le_pow_right (by norm_num) (Nat.le_of_not_lt hj))
    simp [hj, Nat.le_of_not_lt hj, Nat.testBit_lt_two_pow hq2]

theorem shiftRight_shiftLeft_or {c q n : ℕ} (hq : q < 2 ^ n) :
    (c <<< n ||| q) >>> n = c := by
  rw [shiftLeft_or_eq_add hq, Nat.shiftRight_eq_div_pow,
    Nat.mul_add_div (Nat.pos_pow_of_pos n (by norm_num)) c q,
    Nat.div_eq_of_lt hq, Nat.add_zero]

theorem and_mask_shiftLeft_or {c q n : ℕ} (hq : q < 2 ^ n) :
    (c <<< n ||| q) &&& (2 ^ n - 1) = q := by
  rw [shiftLeft_or_eq_add hq, Nat.and_pow_two_sub_one_eq_mod,
    Nat.mul_add_mod, Nat.mod_eq_of_lt hq]

theorem two_pow_or_shiftRight {q n : ℕ} (hq : q < 2 ^ n) :
    (2 ^ n ||| q) >>> n = 1 := by
  have h := shiftRight_shiftLeft_or (c := 1) hq
  rwa [Nat.one_shiftLeft] at h

theorem two_pow_or_and_mask {q n : ℕ} (hq : q < 2 ^ n) :
    (2 ^ n ||| q) &&& (2 ^ n - 1) = q := by
  have h := and_mask_shiftLeft_or (c := 1) hq
  rwa [Nat.one_shiftLeft] at h

theorem shiftLeft_or_lt {c q n m : ℕ} (hq : q < 2 ^ n) (hc : c < 2 ^ m) :
    c <<< n ||| q < 2 ^ (n + m) := by
  rw [shiftLeft_or_eq_add hq, pow_add]
  calc 2 ^ n * c + q < 2 ^ n * c + 2 ^ n := by omega
    _ = 2 ^ n * (c + 1) := by ring
    _ ≤ 2 ^ n * 2 ^ m := Nat.mul_le_mul_left _ hc

/-! ## `LoadBalancingTable` lemmas -/

namespace LoadBalancingTable

variable {K V : Type} [DecidableEq K]

/-- Well-formedness established by `__init__`: backing stores of length
`num_buckets * bucket_size` and at least one bucket. -/
def WF (t : LoadBalancingTable K V) : Prop :=
  t.store.length = t.num_buckets * t.bucket_size ∧
  t.owner_info.length = t.num_buckets * t.bucket_size ∧
  0 < t.num_buckets

theorem init_WF (num_slots bucket_size : ℕ) (hashK : K → ℕ) :
    (init (K := K) (V := V) num_slots bucket_size hashK).WF := by
  refine ⟨by simp [WF, init], by simp [WF, init], ?_⟩
  by_cases h : ceilDiv num_slots bucket_size = 0
  · simp [init, h]
  · simpa [init, h] using Nat.pos_of_ne_zero h

theorem bucketIndex_lt {t : LoadBalancingTable K V} (h : 0 < t.num_buckets) (k : K) :
    t.bucketIndex k < t.num_buckets :=
  Nat.mod_lt _ h

/-- Unfolding of a successful `allocate`. -/
theorem allocate_some {t : LoadBalancingTable K V} {k : K} {v : V} {p : ℕ}
    {t2 : LoadBalancingTable K V} (h : t.allocate k v = some (p, t2)) :
    firstNoneIdx t.owner_info (t.bucketIndex k * t.bucket_size) t.bucket_size = some p ∧
    t2 = { t with
      store := t.store.set (t.bucketIndex k * t.bucket_size + p) (some v)
      owner_info := t.owner_info.set (t.bucketIndex k * t.bucket_size + p) (some (k, p)) } := by
  simp only [allocate] at h
  cases hs : firstNoneIdx t.owner_info (t.bucketIndex k * t.bucket_size) t.bucket_size with
  | none => rw [hs] at h; simp at h
  | some i =>
    rw [hs] at h
    simp only [Option.some.injEq, Prod.mk.injEq] at h
    obtain ⟨hp, ht⟩ := h
    subst hp
    exact ⟨rfl, ht.symm⟩

/-- A failed `allocate` leaves the table untouched by construction: the
`None` branch of the Python loop performs no writes.  A success records
`(k, p)` with `p < bucket_size` at a previously-free in-bucket slot. -/
theorem allocate_some_bounds {t : LoadBalancingTable K V} {k : K} {v : V} {p : ℕ}
    {t2 : LoadBalancingTable K V} (h : t.allocate k v = some (p, t2)) :
    p < t.bucket_size ∧
    t.owner_info.getD (t.bucketIndex k * t.bucket_size + p) none = none := by
  obtain ⟨hs, _⟩ := allocate_some h
  obtain ⟨h1, h2, _⟩ := firstNoneIdx_some hs
  exact ⟨h1, h2⟩

/-- Round-trip: immediately after a successful `allocate` of `(k, v)` with
pointer `p`, `dereference(k, p)` returns `v`. -/
theorem allocate_dereference {t : LoadBalancingTable K V} {k : K} {v : V} {p : ℕ}
    {t2 : LoadBalancingTable K V} (hwf : t.WF) (h : t.allocate k v = some (p, t2)) :
    t2.dereference k p = .ok (some v) := by
  obtain ⟨hstore, howner, hnb⟩ := hwf
  obtain ⟨hs, ht2⟩ := allocate_some h
  obtain ⟨hplt, hfree, _⟩ := firstNoneIdx_some hs
  subst ht2
  have hpos : t.bucketIndex k * t.bucket_size + p < t.num_buckets * t.bucket_size := by
    have hb := bucketIndex_lt hnb k
    calc t.bucketIndex k * t.bucket_size + p
        < t.bucketIndex k * t.bucket_size + t.bucket_size := by omega
      _ = (t.bucketIndex k + 1) * t.bucket_size := by ring
      _ ≤ t.num_buckets * t.bucket_size := Nat.mul_le_mul_right _ (by omega)
  show (if p < t.bucket_size then
      match (t.owner_info.set (t.bucketIndex k * t.bucket_size + p) (some (k, p))).getD
          (t.bucketIndex k * t.bucket_size + p) none with
      | none => Except.error TPErr.notAllocated
      | some (owner, stored_p) =>
        if owner = k ∧ stored_p = p then
          Except.ok ((t.store.set (t.bucketIndex k * t.bucket_size + p) (some v)).getD
            (t.bucketIndex k * t.bucket_size + p) none)
        else Except.error TPErr.ownershipMismatch
    else Except.error TPErr.invalidPointer) = Except.ok (some v)
  rw [if_pos hplt, getD_set_self _ _ (by rw [howner]; exact hpos)]
  have hsv : (t.store.set (t.bucketIndex k * t.bucket_size + p) (some v))[t.bucketIndex
      k * t.bucket_size + p]? = some (some v) :=
    List.getElem?_set_eq_of_lt _ (by rw [hstore]; exact hpos)
  simp [hsv]

/-- `dereference` succeeds only when the addressed slot's recorded owner
pair is exactly the caller's `(k, p)`, and then it returns that very
slot's stored value. -/
theorem dereference_ok {t : LoadBalancingTable K V} {k : K} {p : ℕ} {w : Option V}
    (h : t.dereference k p = .ok w) :
    p < t.bucket_size ∧
    t.owner_info.getD (t.bucketIndex k * t.bucket_size + p) none = some (k, p) ∧
    w = t.store.getD (t.bucketIndex k * t.bucket_size + p) none := by
  simp only [dereference] at h
  by_cases hp : p < t.bucket_size
  · rw [if_pos hp] at h
    split at h
    · simp at h
    · rename_i owner sp ho
      split at h
      · rename_i hok
        obtain ⟨h1, h2⟩ := hok
        subst h1; subst h2
        exact ⟨hp, ho, by injection h with h; exact h.symm⟩
      · simp at h
  · rw [if_neg hp] at h; simp at h

/-- `free` succeeds only on an exact `(k, p)` owner match, and then clears
exactly that slot (value and owner record). -/
theorem free_ok {t : LoadBalancingTable K V} {k : K} {p : ℕ}
    {t2 : LoadBalancingTable K V} (h : t.free k p = .ok t2) :
    p < t.bucket_size ∧
    t.owner_info.getD (t.bucketIndex k * t.bucket_size + p) none = some (k, p) ∧
    t2 = { t with
      store := t.store.set (t.bucketIndex k * t.bucket_size + p) none
      owner_info := t.owner_info.set (t.bucketIndex k * t.bucket_size + p) none } := by
  simp only [free] at h
  by_cases hp : p < t.bucket_size
  · rw [if_pos hp] at h
    split at h
    · simp at h
    · rename_i owner sp ho
      split at h
      · rename_i hok
        obtain ⟨h1, h2⟩ := hok
        subst h1; subst h2
        exact ⟨hp, ho, by injection h with h; exact h.symm⟩
      · simp at h
  · rw [if_neg hp] at h; simp at h

/-- `dereference` on an empty (cleared) slot fails with the not-allocated
error. -/
theorem dereference_notAllocated {t : LoadBalancingTable K V} {k : K} {p : ℕ}
    (hp : p < t.bucket_size)
    (ho : t.owner_info.getD (t.bucketIndex k * t.bucket_size + p) none = none) :
    t.dereference k p = .error .notAllocated := by
  simp only [dereference]
  rw [if_pos hp, ho]

/-- `free` on an empty (cleared) slot fails with the not-allocated error. -/
theorem free_notAllocated {t : LoadBalancingTable K V} {k : K} {p : ℕ}
    (hp : p < t.bucket_size)
    (ho : t.owner_info.getD (t.bucketIndex k * t.bucket_size + p) none = none) :
    t.free k p = .error .notAllocated := by
  simp only [free]
  rw [if_pos hp, ho]

/-- After a successful `free(k, p)`, both `dereference(k, p)` and a second
`free(k, p)` fail with the not-allocated error. -/
theorem free_then_fail {t : LoadBalancingTable K V} {k : K} {p : ℕ}
    {t2 : LoadBalancingTable K V} (h : t.free k p = .ok t2) :
    t2.dereference k p = .error .notAllocated ∧
    t2.free k p = .error .notAllocated := by
  obtain ⟨hp, ho, ht2⟩ := free_ok h
  have hlen : t.bucketIndex k * t.bucket_size + p < t.owner_info.length :=
    lt_length_of_getD_eq_some ho rfl
  subst ht2
  exact ⟨dereference_notAllocated hp (getD_set_self _ _ hlen),
    free_notAllocated hp (getD_set_self _ _ hlen)⟩

/-- `allocate` only writes the stores: all construction-time fields keep
their values. -/
theorem allocate_fields {t : LoadBalancingTable K V} {k : K} {v : V} {p : ℕ}
    {t2 : LoadBalancingTable K V} (h : t.allocate k v = some (p, t2)) :
    t2.bucket_size = t.bucket_size ∧ t2.num_buckets = t.num_buckets ∧
    t2.hashK = t.hashK := by
  obtain ⟨-, ht2⟩ := allocate_some h
  subst ht2
  exact ⟨rfl, rfl, rfl⟩

/-- `free` only writes the stores: all construction-time fields keep their
values. -/
theorem free_fields {t : LoadBalancingTable K V} {k : K} {p : ℕ}
    {t2 : LoadBalancingTable K V} (h : t.free k p = .ok t2) :
    t2.bucket_size = t.bucket_size ∧ t2.num_buckets = t.num_buckets ∧
    t2.hashK = t.hashK := by
  obtain ⟨-, -, ht2⟩ := free_ok h
  subst ht2
  exact ⟨rfl, rfl, rfl⟩

end LoadBalancingTable

/-! ## `PowerOfTwoChoicesDerefTable` lemmas -/

namespace PowerOfTwoChoicesDerefTable

variable {K V : Type} [DecidableEq K]

/-- Well-formedness established by `__init__`. -/
def WF (t : PowerOfTwoChoicesDerefTable K V) : Prop :=
  t.store.length = t.num_buckets * t.bucket_size ∧
  t.owner_info.length = t.num_buckets * t.bucket_size ∧
  0 < t.num_buckets

theorem p2c_init_WF (num_slots bucket_size : ℕ) (hash1 hash2 : K → ℕ) :
    (init (K := K) (V := V) num_slots bucket_size hash1 hash2).WF := by
  refine ⟨by simp [WF, init], by simp [WF, init], ?_⟩
  by_cases h : ceilDiv num_slots bucket_size < 2
  · simp [init, h]
  · simpa [init, h] using by omega

theorem chosenBucket_choice (t : PowerOfTwoChoicesDerefTable K V) (k : K) :
    (t.chosenBucket k).2 = 0 ∨ (t.chosenBucket k).2 = 1 := by
  simp only [chosenBucket]
  cases hbi : t.bucketIndices k with
  | mk b1 b2 => split <;> simp

theorem chosenBucket_fst_lt {t : PowerOfTwoChoicesDerefTable K V}
    (h : 0 < t.num_buckets) (k : K) :
    (t.chosenBucket k).1 < t.num_buckets := by
  simp only [chosenBucket, bucketIndices]
  split <;> split <;> simp <;> exact Nat.mod_lt _ h

theorem chosenBucket_eq (t : PowerOfTwoChoicesDerefTable K V) (k : K) :
    (t.chosenBucket k).1 =
      if (t.chosenBucket k).2 = 0 then (t.bucketIndices k).1
      else (t.bucketIndices k).2 := by
  simp only [chosenBucket]
  split <;> simp

/-- The slot field of every pointer is below `2 ^ p_slot_bits` because
`bucket_size ≤ 2 ^ ceil(log2 bucket_size)`. -/
theorem bucket_size_le_pow (t : PowerOfTwoChoicesDerefTable K V) :
    t.bucket_size ≤ 2 ^ t.p_slot_bits := by
  rw [p_slot_bits, clog2_eq]
  exact Nat.le_pow_clog (by norm_num) t.bucket_size

/-- Decoding a freshly packed pointer `(choice << p_slot_bits) | slot`
recovers the chosen candidate bucket and the slot. -/
theorem decodePointer_pack {t : PowerOfTwoChoicesDerefTable K V} {k : K}
    {choice i : ℕ} (hc : choice = 0 ∨ choice = 1) (hi : i < t.bucket_size) :
    t.decodePointer k ((choice <<< t.p_slot_bits) ||| i) =
      .ok ((if choice = 0 then (t.bucketIndices k).1 else (t.bucketIndices k).2) *
        t.bucket_size + i) := by
  have hi2 : i < 2 ^ t.p_slot_bits := lt_of_lt_of_le hi (bucket_size_le_pow t)
  simp only [decodePointer, p_slot_mask, Nat.one_shiftLeft]
  rw [shiftRight_shiftLeft_or hi2, and_mask_shiftLeft_or hi2,
    if_neg (Nat.not_le.mpr hi)]

/-- Unfolding of a successful `allocate`. -/
theorem p2c_allocate_some {t : PowerOfTwoChoicesDerefTable K V} {k : K} {v : V}
    {p : ℕ} {t2 : PowerOfTwoChoicesDerefTable K V}
    (h : t.allocate k v = some (p, t2)) :
    ∃ i,
      t.bucket_occupancy.getD (t.chosenBucket k).1 0 < (t.bucket_size : ℤ) ∧
      firstNoneIdx t.owner_info ((t.chosenBucket k).1 * t.bucket_size)
        t.bucket_size = some i ∧
      p = ((t.chosenBucket k).2 <<< t.p_slot_bits) ||| i ∧
      t2 = { t with
        store := t.store.set ((t.chosenBucket k).1 * t.bucket_size + i) (some v)
        owner_info :=
          t.owner_info.set ((t.chosenBucket k).1 * t.bucket_size + i) (some (k, p))
        bucket_occupancy :=
          t.bucket_occupancy.set (t.chosenBucket k).1
            (t.bucket_occupancy.getD (t.chosenBucket k).1 0 + 1) } := by
  simp only [allocate] at h
  cases hcb : t.chosenBucket k with
  | mk chosen choice =>
    rw [hcb] at h
    simp only at h
    by_cases hocc : (t.bucket_size : ℤ) ≤ t.bucket_occupancy.getD chosen 0
    · rw [if_pos hocc] at h; simp at h
    · rw [if_neg hocc] at h
      cases hs : firstNoneIdx t.owner_info (chosen * t.bucket_size) t.bucket_size with
      | none => rw [hs] at h; simp at h
      | some i =>
        rw [hs] at h
        simp only [Option.some.injEq, Prod.mk.injEq] at h
        obtain ⟨hp, ht⟩ := h
        refine ⟨i, ?_, ?_, ?_, ?_⟩
        · simpa using Int.not_le.mp hocc
        · simpa using hs
        · simpa using hp.symm
        · subst ht; rw [← hp]

/-- Decoding depends only on the construction-time fields, which
`allocate`/`free` never change. -/
theorem decodePointer_congr {t t2 : PowerOfTwoChoicesDerefTable K V}
    (hbs : t2.bucket_size = t.bucket_size) (hnb : t2.num_buckets = t.num_buckets)
    (h1 : t2.hash1 = t.hash1) (h2 : t2.hash2 = t.hash2) (k : K) (p : ℕ) :
    t2.decodePointer k p = t.decodePointer k p := by
  simp only [decodePointer, p_slot_bits, p_slot_mask, bucketIndices, hbs, hnb, h1, h2]

/-- Round-trip: immediately after a successful `allocate` of `(k, v)` with
pointer `p`, `dereference(k, p)` returns `v`. -/
theorem p2c_allocate_dereference {t : PowerOfTwoChoicesDerefTable K V} {k : K}
    {v : V} {p : ℕ} {t2 : PowerOfTwoChoicesDerefTable K V}
    (hwf : t.WF) (h : t.allocate k v = some (p, t2)) :
    t2.dereference k p = .ok (some v) := by
  obtain ⟨hstore, howner, hnb⟩ := hwf
  obtain ⟨i, hocc, hs, hp, ht2⟩ := p2c_allocate_some h
  obtain ⟨hilt, hfree, _⟩ := firstNoneIdx_some hs
  have hcl : (t.chosenBucket k).1 < t.num_buckets := chosenBucket_fst_lt hnb k
  have hpos : (t.chosenBucket k).1 * t.bucket_size + i <
      t.num_buckets * t.bucket_size := by
    calc (t.chosenBucket k).1 * t.bucket_size + i
        < (t.chosenBucket k).1 * t.bucket_size + t.bucket_size := by omega
      _ = ((t.chosenBucket k).1 + 1) * t.bucket_size := by ring
      _ ≤ t.num_buckets * t.bucket_size := Nat.mul_le_mul_right _ (by omega)
  have hdec : t2.decodePointer k p =
      .ok ((t.chosenBucket k).1 * t.bucket_size + i) := by
    rw [decodePointer_congr (t := t) (by rw [ht2]) (by rw [ht2]) (by rw [ht2])
      (by rw [ht2]) k p, hp,
      decodePointer_pack (chosenBucket_choice t k) hilt, ← chosenBucket_eq t k]
  simp only [dereference]
  rw [hdec]
  subst ht2; subst hp
  have hown : (t.owner_info.set ((t.chosenBucket k).1 * t.bucket_size + i)
      (some (k, (t.chosenBucket k).2 <<< t.p_slot_bits ||| i)))[(t.chosenBucket
      k).1 * t.bucket_size + i]? =
        some (some (k, (t.chosenBucket k).2 <<< t.p_slot_bits ||| i)) :=
    List.getElem?_set_eq_of_lt _ (by rw [howner]; exact hpos)
  have hst : (t.store.set ((t.chosenBucket k).1 * t.bucket_size + i)
      (some v))[(t.chosenBucket k).1 * t.bucket_size + i]? = some (some v) :=
    List.getElem?_set_eq_of_lt _ (by rw [hstore]; exact hpos)
  simp [hown, hst]

/-- `dereference` succeeds only when the slot addressed by the decoded
pointer records exactly the caller's `(k, p)`, and then it returns that
slot's stored value. -/
theorem p2c_dereference_ok {t : PowerOfTwoChoicesDerefTable K V} {k : K} {p : ℕ}
    {w : Option V} (h : t.dereference k p = .ok w) :
    ∃ pos, t.decodePointer k p = .ok pos ∧
      t.owner_info.getD pos none = some (k, p) ∧
      w = t.store.getD pos none := by
  simp only [dereference] at h
  split at h
  · simp at h
  · rename_i pos hdp
    split at h
    · simp at h
    · rename_i owner sp ho
      split at h
      · rename_i hok
        obtain ⟨h1, h2⟩ := hok
        subst h1; subst h2
        exact ⟨pos, hdp, ho, by injection h with h; exact h.symm⟩
      · simp at h

/-- `free` succeeds only on an exact `(k, p)` owner match at the decoded
slot, and then clears that slot and decrements its bucket's counter. -/
theorem p2c_free_ok {t : PowerOfTwoChoicesDerefTable K V} {k : K} {p : ℕ}
    {t2 : PowerOfTwoChoicesDerefTable K V} (h : t.free k p = .ok t2) :
    ∃ pos, t.decodePointer k p = .ok pos ∧
      t.owner_info.getD pos none = some (k, p) ∧
      t2 = { t with
        store := t.store.set pos none
        owner_info := t.owner_info.set pos none
        bucket_occupancy := t.bucket_occupancy.set (pos / t.bucket_size)
          (t.bucket_occupancy.getD (pos / t.bucket_size) 0 - 1) } := by
  simp only [free] at h
  split at h
  · simp at h
  · rename_i pos hdp
    split at h
    · simp at h
    · rename_i owner sp ho
      split at h
      · rename_i hok
        obtain ⟨h1, h2⟩ := hok
        subst h1; subst h2
        exact ⟨pos, hdp, ho, by injection h with h; exact h.symm⟩
      · simp at h

/-- After a successful `free(k, p)`, both `dereference(k, p)` and a second
`free(k, p)` fail with the not-allocated error. -/
theorem p2c_free_then_fail {t : PowerOfTwoChoicesDerefTable K V} {k : K} {p : ℕ}
    {t2 : PowerOfTwoChoicesDerefTable K V} (h : t.free k p = .ok t2) :
    t2.dereference k p = .error .notAllocated ∧
    t2.free k p = .error .notAllocated := by
  obtain ⟨pos, hd, ho, ht2⟩ := p2c_free_ok h
  have hlen : pos < t.owner_info.length := lt_length_of_getD_eq_some ho rfl
  have hdec : t2.decodePointer k p = .ok pos := by
    rw [decodePointer_congr (t := t) (by rw [ht2]) (by rw [ht2]) (by rw [ht2])
      (by rw [ht2]) k p, hd]
  have howncl : t2.owner_info.getD pos none = (none : Option (K × ℕ)) := by
    rw [ht2]; exact getD_set_self _ _ hlen
  constructor
  · simp only [dereference, hdec, howncl]
  · simp only [free, hdec, howncl]

/-- `allocate` only writes the stores and the occupancy counters: all
construction-time fields keep their values. -/
theorem p2c_allocate_fields {t : PowerOfTwoChoicesDerefTable K V} {k : K} {v : V}
    {p : ℕ} {t2 : PowerOfTwoChoicesDerefTable K V}
    (h : t.allocate k v = some (p, t2)) :
    t2.bucket_size = t.bucket_size ∧ t2.num_buckets = t.num_buckets ∧
    t2.hash1 = t.hash1 ∧ t2.hash2 = t.hash2 := by
  obtain ⟨i, -, -, -, ht2⟩ := p2c_allocate_some h
  subst ht2
  exact ⟨rfl, rfl, rfl, rfl⟩

/-- `free` only writes the stores and the occupancy counters: all
construction-time fields keep their values. -/
theorem p2c_free_fields {t : PowerOfTwoChoicesDerefTable K V} {k : K} {p : ℕ}
    {t2 : PowerOfTwoChoicesDerefTable K V} (h : t.free k p = .ok t2) :
    t2.bucket_size = t.bucket_size ∧ t2.num_buckets = t.num_buckets ∧
    t2.hash1 = t.hash1 ∧ t2.hash2 = t.hash2 := by
  obtain ⟨pos, -, -, ht2⟩ := p2c_free_ok h
  subst ht2
  exact ⟨rfl, rfl, rfl, rfl⟩

/-- Every pointer returned by `allocate` fits in `1 + p_slot_bits` bits:
one choice bit on top of the slot field. -/
theorem allocate_p_lt {t : PowerOfTwoChoicesDerefTable K V} {k : K} {v : V}
    {p : ℕ} {t2 : PowerOfTwoChoicesDerefTable K V}
    (h : t.allocate k v = some (p, t2)) :
    p < 2 ^ (1 + t.p_slot_bits) := by
  obtain ⟨i, -, hs, hp, -⟩ := p2c_allocate_some h
  obtain ⟨hilt, -, -⟩ := firstNoneIdx_some hs
  have hi2 : i < 2 ^ t.p_slot_bits := lt_of_lt_of_le hilt (bucket_size_le_pow t)
  have hc : (t.chosenBucket k).2 < 2 ^ 1 := by
    rcases chosenBucket_choice t k with h0 | h0 <;> rw [h0] <;> norm_num
  rw [hp, Nat.add_comm 1 t.p_slot_bits]
  exact shiftLeft_or_lt hi2 hc

end PowerOfTwoChoicesDerefTable


/-! ## `FixedSizeDerefTable` lemmas -/

namespace FixedSizeDerefTable

variable {K V : Type} [DecidableEq K]

/-- Well-formedness: both sub-tables well-formed. -/
def WF (t : FixedSizeDerefTable K V) : Prop :=
  t.primary.WF ∧ t.secondary.WF

theorem max_p_bits_eq (t : FixedSizeDerefTable K V) :
    t.max_p_bits = max t.primary.p_bits (1 + t.secondary.p_slot_bits) + 1 := rfl

theorem primary_bits_le (t : FixedSizeDerefTable K V) :
    t.primary.p_bits ≤ t.max_p_bits - 1 := by
  rw [max_p_bits_eq]
  simp [primary_p_bits, secondary_p_bits]

theorem secondary_bits_le (t : FixedSizeDerefTable K V) :
    1 + t.secondary.p_slot_bits ≤ t.max_p_bits - 1 := by
  rw [max_p_bits_eq]
  simp [primary_p_bits, secondary_p_bits]

theorem max_p_bits_pos (t : FixedSizeDerefTable K V) : 0 < t.max_p_bits := by
  rw [max_p_bits_eq]; omega

/-- Unfolding of a successful `allocate`: either the primary table took it
(pointer passed through) or the primary failed and the secondary took it
(origin bit set). -/
theorem allocate_ok {t : FixedSizeDerefTable K V} {k : K} {v : V} {p : ℕ}
    {t2 : FixedSizeDerefTable K V} (h : t.allocate k v = .ok (p, t2)) :
    (∃ q pr2, t.primary.allocate k v = some (q, pr2) ∧ p = q ∧
      t2 = { t with primary := pr2 }) ∨
    (t.primary.allocate k v = none ∧
      ∃ q se2, t.secondary.allocate k v = some (q, se2) ∧
        p = (1 <<< (t.max_p_bits - 1)) ||| q ∧ t2 = { t with secondary := se2 }) := by
  simp only [allocate] at h
  split at h
  · rename_i q pr2 hpr
    left
    refine ⟨q, pr2, hpr, ?_, ?_⟩ <;> injection h with h <;>
      injection h with h1 h2
    · exact h1.symm
    · exact h2.symm
  · rename_i hpr
    split at h
    · rename_i q se2 hse
      right
      refine ⟨hpr, q, se2, hse, ?_, ?_⟩ <;> injection h with h <;>
        injection h with h1 h2
      · exact h1.symm
      · exact h2.symm
    · simp at h

/-- Decoding a pointer below the origin-bit position yields the primary
table. -/
theorem decodePointer_primary {t : FixedSizeDerefTable K V} {p : ℕ}
    (hp : p < 2 ^ (t.max_p_bits - 1)) :
    t.decodePointer p = (false, p) := by
  simp only [decodePointer]
  rw [Nat.shiftRight_eq_div_pow, Nat.div_eq_of_lt hp]
  simp

/-- Decoding a pointer with the origin bit set yields the secondary table
and the unmasked local pointer. -/
theorem decodePointer_secondary {t : FixedSizeDerefTable K V} {q : ℕ}
    (hq : q < 2 ^ (t.max_p_bits - 1)) :
    t.decodePointer ((1 <<< (t.max_p_bits - 1)) ||| q) = (true, q) := by
  simp only [decodePointer, Nat.one_shiftLeft]
  rw [two_pow_or_shiftRight hq, two_pow_or_and_mask hq]
  simp

/-- A primary-origin pointer is below `2 ^ (max_p_bits - 1)`. -/
theorem primary_pointer_lt {t : FixedSizeDerefTable K V} {k : K} {v : V}
    {q : ℕ} {pr2 : LoadBalancingTable K V}
    (hpr : t.primary.allocate k v = some (q, pr2)) :
    q < 2 ^ (t.max_p_bits - 1) := by
  have hq := (LoadBalancingTable.allocate_some_bounds hpr).1
  calc q < t.primary.bucket_size := hq
    _ ≤ 2 ^ t.primary.p_bits := by
      rw [LoadBalancingTable.p_bits, clog2_eq]
      exact Nat.le_pow_clog (by norm_num) _
    _ ≤ 2 ^ (t.max_p_bits - 1) := Nat.pow_le_pow_right (by norm_num) (primary_bits_le t)

/-- A secondary-origin local pointer is below `2 ^ (max_p_bits - 1)`. -/
theorem secondary_pointer_lt {t : FixedSizeDerefTable K V} {k : K} {v : V}
    {q : ℕ} {se2 : PowerOfTwoChoicesDerefTable K V}
    (hse : t.secondary.allocate k v = some (q, se2)) :
    q < 2 ^ (t.max_p_bits - 1) := by
  calc q < 2 ^ (1 + t.secondary.p_slot_bits) :=
      PowerOfTwoChoicesDerefTable.allocate_p_lt hse
    _ ≤ 2 ^ (t.max_p_bits - 1) := Nat.pow_le_pow_right (by norm_num) (secondary_bits_le t)

/-- Round-trip: immediately after a successful `allocate` of `(k, v)` with
pointer `p`, `dereference(k, p)` returns `v`. -/
theorem fst_allocate_dereference {t : FixedSizeDerefTable K V} {k : K} {v : V}
    {p : ℕ} {t2 : FixedSizeDerefTable K V} (hwf : t.WF)
    (h : t.allocate k v = .ok (p, t2)) :
    t2.dereference k p = .ok (some v) := by
  obtain ⟨hwfP, hwfS⟩ := hwf
  rcases allocate_ok h with ⟨q, pr2, hpr, hp, ht2⟩ | ⟨hprN, q, se2, hse, hp, ht2⟩
  · have hmax : t2.max_p_bits = t.max_p_bits := by
      obtain ⟨hbs, -, -⟩ := LoadBalancingTable.allocate_fields hpr
      rw [ht2]
      simp only [max_p_bits_eq, LoadBalancingTable.p_bits]
      rw [hbs]
    have hdp : t2.decodePointer p = (false, p) := by
      apply decodePointer_primary
      rw [hmax, hp]
      exact primary_pointer_lt hpr
    have hderef : t2.primary.dereference k p = .ok (some v) := by
      rw [ht2, hp]
      exact LoadBalancingTable.allocate_dereference hwfP hpr
    simp only [dereference, hdp]
    simpa using hderef
  · have hmax : t2.max_p_bits = t.max_p_bits := by
      obtain ⟨hbs, -, -, -⟩ := PowerOfTwoChoicesDerefTable.p2c_allocate_fields hse
      rw [ht2]
      simp only [max_p_bits_eq, PowerOfTwoChoicesDerefTable.p_slot_bits]
      rw [hbs]
    have hdp : t2.decodePointer p = (true, q) := by
      rw [hp, ← hmax]
      apply decodePointer_secondary
      rw [hmax]
      exact secondary_pointer_lt hse
    have hderef : t2.secondary.dereference k q = .ok (some v) := by
      rw [ht2]
      exact PowerOfTwoChoicesDerefTable.p2c_allocate_dereference hwfS hse
    simp only [dereference, hdp]
    simpa using hderef

/-- Unfolding of a successful `free`: the decoded origin's sub-table free
succeeded and only that sub-table changed. -/
theorem fst_free_ok {t : FixedSizeDerefTable K V} {k : K} {p : ℕ}
    {t2 : FixedSizeDerefTable K V} (h : t.free k p = .ok t2) :
    (∃ pval pr2, t.decodePointer p = (false, pval) ∧
      t.primary.free k pval = .ok pr2 ∧ t2 = { t with primary := pr2 }) ∨
    (∃ pval se2, t.decodePointer p = (true, pval) ∧
      t.secondary.free k pval = .ok se2 ∧ t2 = { t with secondary := se2 }) := by
  simp only [free] at h
  cases hdp : t.decodePointer p with
  | mk is_sec pval =>
    rw [hdp] at h
    cases is_sec with
    | false =>
      left
      replace h : (t.primary.free k pval).map
          (fun s => { primary := s, secondary := t.secondary }) = Except.ok t2 := h
      cases hfr : t.primary.free k pval with
      | error e => rw [hfr] at h; simp [Except.map] at h
      | ok pr2 =>
        rw [hfr] at h
        have h2 : (Except.ok { primary := pr2, secondary := t.secondary } :
            Except TPErr (FixedSizeDerefTable K V)) = Except.ok t2 := h
        injection h2 with h2
        exact ⟨pval, pr2, rfl, hfr, h2.symm⟩
    | true =>
      right
      replace h : (t.secondary.free k pval).map
          (fun s => { primary := t.primary, secondary := s }) = Except.ok t2 := h
      cases hfr : t.secondary.free k pval with
      | error e => rw [hfr] at h; simp [Except.map] at h
      | ok se2 =>
        rw [hfr] at h
        have h2 : (Except.ok { primary := t.primary, secondary := se2 } :
            Except TPErr (FixedSizeDerefTable K V)) = Except.ok t2 := h
        injection h2 with h2
        exact ⟨pval, se2, rfl, hfr, h2.symm⟩

/-- After a successful `free(k, p)`, both `dereference(k, p)` and a second
`free(k, p)` fail with the not-allocated error. -/
theorem fst_free_then_fail {t : FixedSizeDerefTable K V} {k : K} {p : ℕ}
    {t2 : FixedSizeDerefTable K V} (h : t.free k p = .ok t2) :
    t2.dereference k p = .error .notAllocated ∧
    t2.free k p = .error .notAllocated := by
  rcases fst_free_ok h with ⟨pval, pr2, hdp, hfr, ht2⟩ | ⟨pval, se2, hdp, hfr, ht2⟩
  · have hmax : t2.max_p_bits = t.max_p_bits := by
      obtain ⟨hbs, -, -⟩ := LoadBalancingTable.free_fields hfr
      rw [ht2]
      simp only [max_p_bits_eq, LoadBalancingTable.p_bits]
      rw [hbs]
    have hdeq : t2.decodePointer p = t.decodePointer p := by
      simp only [decodePointer, hmax]
    have hdp2 : t2.decodePointer p = (false, pval) := by rw [hdeq, hdp]
    obtain ⟨hd2, hf2⟩ := LoadBalancingTable.free_then_fail hfr
    constructor
    · simp only [dereference, hdp2]
      rw [ht2]
      simpa using hd2
    · simp only [free, hdp2]
      rw [ht2]
      simp [hf2, Except.map]
  · have hmax : t2.max_p_bits = t.max_p_bits := by
      obtain ⟨hbs, -, -, -⟩ := PowerOfTwoChoicesDerefTable.p2c_free_fields hfr
      rw [ht2]
      simp only [max_p_bits_eq, PowerOfTwoChoicesDerefTable.p_slot_bits]
      rw [hbs]
    have hdeq : t2.decodePointer p = t.decodePointer p := by
      simp only [decodePointer, hmax]
    have hdp2 : t2.decodePointer p = (true, pval) := by rw [hdeq, hdp]
    obtain ⟨hd2, hf2⟩ := PowerOfTwoChoicesDerefTable.p2c_free_then_fail hfr
    constructor
    · simp only [dereference, hdp2]
      rw [ht2]
      simpa using hd2
    · simp only [free, hdp2]
      rw [ht2]
      simp [hf2, Except.map]

end FixedSizeDerefTable


/-! ## `_Container` and `VariableSizeDerefTable` lemmas -/

namespace Container

variable {K V : Type} [DecidableEq K]

/-- After a successful `free(k, pc)`, both `dereference(k, pc)` and a
second `free(k, pc)` on the container fail with the not-allocated error:
the freed cell (overflow or level slot) is cleared, and the pointer decodes
to the same cell again. -/
theorem container_free_then_fail {c : Container K V} {k : K} {pc : ℕ × ℕ}
    {c2 : Container K V} (h : c.free k pc = .ok c2) :
    c2.dereference k pc = .error .notAllocated ∧
    c2.free k pc = .error .notAllocated := by
  simp only [free] at h
  by_cases hov : isOverflow pc.1
  · rw [if_pos hov] at h
    by_cases hpl : pc.2 < (c.overflow_arrays.getD (levelIdx pc.1) []).length
    · rw [if_pos hpl] at h
      split at h
      · simp at h
      · rename_i owner value ho
        split at h
        · injection h with h
          have hli : levelIdx pc.1 < c.overflow_arrays.length := by
            by_contra hge
            rw [List.getD_eq_default _ _ (Nat.le_of_not_lt hge)] at hpl
            simp at hpl
          rw [← h]
          constructor
          · simp only [dereference, postFree]
            rw [if_pos hov, getD_set_self _ _ hli,
              if_pos (by simpa using hpl), getD_set_self _ _ hpl]
          · simp only [free, postFree]
            rw [if_pos hov, getD_set_self _ _ hli,
              if_pos (by simpa using hpl), getD_set_self _ _ hpl]
        · simp at h
    · rw [if_neg hpl] at h
      simp at h
  · rw [if_neg hov] at h
    split at h
    · rename_i hL
      cases hfr : (c.levels.get ⟨levelIdx pc.1, hL⟩).free k pc.2 with
      | error e => rw [hfr] at h; simp [Except.map] at h
      | ok lvl2 =>
        rw [hfr] at h
        injection h with h
        obtain ⟨hd2, hf2⟩ := LoadBalancingTable.free_then_fail hfr
        rw [← h]
        have hL2 : levelIdx pc.1 <
            (c.levels.set (levelIdx pc.1) lvl2).length := by simpa using hL
        have hget : (c.levels.set (levelIdx pc.1) lvl2).get
            ⟨levelIdx pc.1, hL2⟩ = lvl2 := by
          simp [List.get_eq_getElem, List.getElem_set_self]
        constructor
        · simp only [dereference, postFree]
          rw [if_neg hov, dif_pos hL2, hget]
          exact hd2
        · simp only [free, postFree]
          rw [if_neg hov, dif_pos hL2, hget, hf2]
          rfl
    · simp at h

end Container

namespace VariableSizeDerefTable

variable {K V : Type} [DecidableEq K]

/-- After a successful `free(k, p)`, both `dereference(k, p)` and a second
`free(k, p)` fail with the not-allocated error: the global pointer decodes
to the same container and cell, which the free cleared. -/
theorem vst_free_then_fail {t : VariableSizeDerefTable K V} {k : K} {p : ℕ}
    {t2 : VariableSizeDerefTable K V} (h : t.free k p = .ok t2) :
    t2.dereference k p = .error .notAllocated ∧
    t2.free k p = .error .notAllocated := by
  simp only [free] at h
  split at h
  · simp at h
  · rename_i hnc
    split at h
    · rename_i hc
      cases hfr : (t.containers.get ⟨(vstDecodePointer p).1, hc⟩).free k
          (vstDecodePointer p).2 with
      | error e => rw [hfr] at h; simp [Except.map] at h
      | ok c2 =>
        rw [hfr] at h
        injection h with h
        obtain ⟨hd2, hf2⟩ := Container.container_free_then_fail hfr
        rw [← h]
        have hc2 : (vstDecodePointer p).1 <
            (t.containers.set (vstDecodePointer p).1 c2).length := by
          simpa using hc
        have hget : (t.containers.set (vstDecodePointer p).1 c2).get
            ⟨(vstDecodePointer p).1, hc2⟩ = c2 := by
          simp [List.get_eq_getElem, List.getElem_set_self]
        constructor
        · simp only [dereference]
          rw [if_neg hnc, dif_pos hc2, hget]
          exact hd2
        · simp only [free]
          rw [if_neg hnc, dif_pos hc2, hget, hf2]
          rfl
    · simp at h

end VariableSizeDerefTable


/-! ## Pointer-packing arithmetic for `VariableSizeDerefTable` -/

theorem shiftRight_or_distrib (a b n : ℕ) :
    (a ||| b) >>> n = (a >>> n) ||| (b >>> n) := by
  apply Nat.eq_of_testBit_eq
  intro i
  simp [Nat.testBit_shiftRight, Nat.testBit_lor]

theorem shiftLeft_shiftRight_of_le {n m : ℕ} (c : ℕ) (h : n ≤ m) :
    (c <<< n) >>> m = c >>> (m - n) := by
  rw [Nat.shiftLeft_eq, Nat.shiftRight_eq_div_pow, Nat.shiftRight_eq_div_pow]
  rw [show (2 : ℕ) ^ m = 2 ^ n * 2 ^ (m - n) from by
    rw [← pow_add]; congr 1; omega]
  rw [Nat.mul_comm c (2 ^ n)]
  exact Nat.mul_div_mul_left _ _ (Nat.pos_pow_of_pos n (by norm_num))

theorem shiftLeft_shiftRight_of_ge {n m : ℕ} (c : ℕ) (h : m ≤ n) :
    (c <<< n) >>> m = c <<< (n - m) := by
  rw [Nat.shiftLeft_eq, Nat.shiftRight_eq_div_pow, Nat.shiftLeft_eq]
  rw [show (2 : ℕ) ^ n = 2 ^ (n - m) * 2 ^ m from by
    rw [← pow_add]; congr 1; omega]
  rw [← Nat.mul_assoc]
  exact Nat.mul_div_cancel _ (Nat.pos_pow_of_pos m (by norm_num))

theorem shiftLeft_and_mask_eq_zero {n m : ℕ} (c : ℕ) (h : m ≤ n) :
    (c <<< n) &&& (2 ^ m - 1) = 0 := by
  rw [Nat.shiftLeft_eq, Nat.and_pow_two_sub_one_eq_mod]
  rw [show (2 : ℕ) ^ n = 2 ^ (n - m) * 2 ^ m from by
    rw [← pow_add]; congr 1; omega]
  rw [← Nat.mul_assoc]
  exact Nat.mul_mod_left _ _

/-- What `_decode_pointer` actually recovers from a packed pointer, for an
arbitrary level word: the level field is truncated to 16 bits and the bits
of the level word above bit 15 (in particular the overflow flag at bit 31)
leak into the decoded container index. -/
theorem vstDecodePointer_vstPack {pl : ℕ} (ci lv : ℕ) (hpl : pl < 2 ^ 32) :
    vstDecodePointer (vstPack ci lv pl) =
      (ci ||| lv >>> 16, lv &&& (2 ^ 16 - 1), pl) := by
  have h48 : pl >>> 48 = 0 := by
    rw [Nat.shiftRight_eq_div_pow]
    exact Nat.div_eq_of_lt (lt_of_lt_of_le hpl (by norm_num))
  have h32 : pl >>> 32 = 0 := by
    rw [Nat.shiftRight_eq_div_pow]
    exact Nat.div_eq_of_lt hpl
  have hA : vstPack ci lv pl >>> 48 = ci ||| lv >>> 16 := by
    simp only [vstPack]
    rw [shiftRight_or_distrib, shiftRight_or_distrib, h48,
      shiftLeft_shiftRight_of_le ci (by norm_num),
      shiftLeft_shiftRight_of_le lv (by norm_num),
      show (48 : ℕ) - 48 = 0 from rfl, show (48 : ℕ) - 32 = 16 from rfl,
      Nat.shiftRight_zero, Nat.or_zero]
  have hB : (vstPack ci lv pl >>> 32) &&& 0xFFFF = lv &&& (2 ^ 16 - 1) := by
    simp only [vstPack]
    rw [show (0xFFFF : ℕ) = 2 ^ 16 - 1 from by norm_num]
    rw [shiftRight_or_distrib, shiftRight_or_distrib, h32,
      shiftLeft_shiftRight_of_ge ci (by norm_num),
      shiftLeft_shiftRight_of_le lv (by norm_num), Nat.or_zero]
    rw [show (32 : ℕ) - 32 = 0 from rfl, show (48 : ℕ) - 32 = 16 from rfl,
      Nat.shiftRight_zero, Nat.and_distrib_right,
      shiftLeft_and_mask_eq_zero ci (by norm_num), Nat.zero_or]
  have hC : vstPack ci lv pl &&& 0xFFFFFFFF = pl := by
    simp only [vstPack]
    rw [show (0xFFFFFFFF : ℕ) = 2 ^ 32 - 1 from by norm_num]
    rw [Nat.and_distrib_right, Nat.and_distrib_right,
      shiftLeft_and_mask_eq_zero ci (by norm_num),
      shiftLeft_and_mask_eq_zero lv (by norm_num),
      Nat.and_pow_two_sub_one_eq_mod, Nat.mod_eq_of_lt hpl]
    simp
  simp only [vstDecodePointer, hA, hB, hC]

/-- A flag-free packed pointer decodes to exactly the packed triple. -/
theorem vstDecodePointer_vstPack_normal {ci lv pl : ℕ}
    (hlv : lv < 2 ^ 16) (hpl : pl < 2 ^ 32) :
    vstDecodePointer (vstPack ci lv pl) = (ci, lv, pl) := by
  rw [vstDecodePointer_vstPack ci lv hpl]
  rw [show lv >>> 16 = 0 from by
    rw [Nat.shiftRight_eq_div_pow]; exact Nat.div_eq_of_lt hlv]
  rw [Nat.or_zero, Nat.and_pow_two_sub_one_eq_mod, Nat.mod_eq_of_lt hlv]

/-- An overflow-flagged packed pointer does not decode to the packed
triple: the flag bit (bit 31 of the level word) is lost from the level
field and lands in the container-index field instead. -/
theorem vstDecodePointer_vstPack_overflow {ci lv pl : ℕ}
    (hlv : lv < 2 ^ 16) (hpl : pl < 2 ^ 32) :
    vstDecodePointer (vstPack ci (lv ||| 1 <<< 31) pl) =
      (ci ||| 2 ^ 15, lv, pl) := by
  rw [vstDecodePointer_vstPack ci (lv ||| 1 <<< 31) hpl]
  have h1 : (lv ||| 1 <<< 31) >>> 16 = 2 ^ 15 := by
    rw [shiftRight_or_distrib, Nat.one_shiftLeft,
      show lv >>> 16 = 0 from by
        rw [Nat.shiftRight_eq_div_pow]; exact Nat.div_eq_of_lt hlv,
      Nat.zero_or, Nat.shiftRight_eq_div_pow]
    norm_num
  have h2 : (lv ||| 1 <<< 31) &&& (2 ^ 16 - 1) = lv := by
    rw [Nat.and_distrib_right, Nat.one_shiftLeft,
      Nat.and_pow_two_sub_one_eq_mod, Nat.and_pow_two_sub_one_eq_mod,
      Nat.mod_eq_of_lt hlv]
    norm_num
  rw [h1, h2]


/-! ## `_Container.allocate`: the overflow path (cascading policy) -/

namespace Container

variable {K V : Type} [DecidableEq K]

/-- A level index below `2^31` does not carry the overflow flag. -/
theorem not_isOverflow_of_lt {i : ℕ} (h : i < 2 ^ 31) : ¬ isOverflow i := by
  unfold isOverflow
  rw [Nat.one_shiftLeft, Nat.and_two_pow, Nat.testBit_lt_two_pow h]
  simp

/-- Setting the overflow flag marks the level word as overflow. -/
theorem isOverflow_or_flag (i : ℕ) : isOverflow (i ||| 1 <<< 31) := by
  unfold isOverflow
  intro h0
  have h31 := congrArg (fun x => x.testBit 31) h0
  rw [Nat.one_shiftLeft] at h31
  simp only [Nat.testBit_land, Nat.testBit_lor, Nat.testBit_two_pow_self,
    Nat.zero_testBit, Bool.or_true, Bool.and_true] at h31
  exact Bool.true_eq_false.mp h31

/-- Clearing the flag from a flagged small level index recovers the index. -/
theorem levelIdx_or_flag {i : ℕ} (h : i < 2 ^ 31) :
    levelIdx (i ||| 1 <<< 31) = i := by
  unfold levelIdx
  rw [Nat.one_shiftLeft, Nat.and_distrib_right,
    Nat.and_pow_two_sub_one_eq_mod, Nat.and_pow_two_sub_one_eq_mod,
    Nat.mod_eq_of_lt h, Nat.mod_self, Nat.or_zero]

/-- The loop of `_Container.allocate` places an item into level `li`'s
overflow array only when level `li`'s own `LoadBalancingTable` allocation
failed at this very call and, at the moment of the check, either `li` is
the last level or level `li+1`'s occupancy counter (untouched so far in
this call) is already at least its slot count. -/
theorem allocLoop_overflow {k : K} {v : V} {fuel : ℕ} :
    ∀ {i : ℕ} {c : Container K V} {lv j : ℕ} {c2 : Container K V},
    c.levels.length < 2 ^ 31 →
    allocLoop k v i fuel c = .ok ((lv, j), c2) →
    isOverflow lv →
    ∃ hL : levelIdx lv < c.levels.length,
      i ≤ levelIdx lv ∧
      (c.levels.get ⟨levelIdx lv, hL⟩).allocate k v = none ∧
      (levelIdx lv + 1 = c.levels.length ∨
        (levelIdx lv + 1 < c.levels.length ∧
          (c.level_slots.getD (levelIdx lv + 1) 0 : ℤ) ≤
            c.level_occupancy.getD (levelIdx lv + 1) 0)) := by
  induction fuel with
  | zero => intro i c lv j c2 hlen h hov; simp [allocLoop] at h
  | succ fuel ih =>
    intro i c lv j c2 hlen h hov
    rw [allocLoop] at h
    dsimp only at h
    split at h
    · rename_i hi
      split at h
      · rename_i p lvl2 halloc
        simp only [AllocResult.ok.injEq, Prod.mk.injEq] at h
        obtain ⟨⟨hilv, -⟩, -⟩ := h
        subst hilv
        exact absurd hov (not_isOverflow_of_lt (lt_trans hi hlen))
      · rename_i halloc
        by_cases hnext : i + 1 < c.levels.length
        · rw [if_pos hnext, if_pos hnext] at h
          split at h
          · rename_i hsat
            split at h
            · rename_i j0 hscan
              simp only [AllocResult.ok.injEq, Prod.mk.injEq] at h
              obtain ⟨⟨hlv, -⟩, -⟩ := h
              have hi31 : i < 2 ^ 31 := lt_trans hi hlen
              have hli : levelIdx lv = i := by
                rw [← hlv]; exact levelIdx_or_flag hi31
              rw [hli]
              refine ⟨hi, le_refl i, halloc, Or.inr ⟨hnext, ?_⟩⟩
              have hsat2 : (c.level_slots.getD (i + 1) 0 : ℤ) ≤
                  (c.level_occupancy.set i
                    (c.level_occupancy.getD i 0 + 1)).getD (i + 1) 0 := hsat
              rwa [getD_set_ne _ _ (by omega)] at hsat2
            · simp at h
          · rename_i hsat
            obtain ⟨hL1, hle1, halloc1, hsat1⟩ := ih (by exact hlen) h hov
            have hL : levelIdx lv < c.levels.length := hL1
            refine ⟨hL, by omega, halloc1, ?_⟩
            rcases hsat1 with heq | ⟨hlt, hocc⟩
            · left; exact heq
            · right
              refine ⟨hlt, ?_⟩
              have hocc2 : (c.level_slots.getD (levelIdx lv + 1) 0 : ℤ) ≤
                  (c.level_occupancy.set i
                    (c.level_occupancy.getD i 0 + 1)).getD
                    (levelIdx lv + 1) 0 := hocc
              rwa [getD_set_ne _ _ (by omega)] at hocc2
        · rw [if_neg hnext, if_neg hnext] at h
          rw [if_pos (by norm_num : ((0 : ℕ) : ℤ) ≤ (0 : ℤ))] at h
          split at h
          · rename_i j0 hscan
            simp only [AllocResult.ok.injEq, Prod.mk.injEq] at h
            obtain ⟨⟨hlv, -⟩, -⟩ := h
            have hi31 : i < 2 ^ 31 := lt_trans hi hlen
            have hli : levelIdx lv = i := by
              rw [← hlv]; exact levelIdx_or_flag hi31
            rw [hli]
            exact ⟨hi, le_refl i, halloc, Or.inl (by omega)⟩
          · simp at h
    · simp at h

/-- `_Container.allocate` spills an item into level `li`'s overflow array
only when level `li`'s own table allocation failed and the next level is
already saturated (occupancy counter at least its slot count), or `li` is
the last level. -/
theorem allocate_overflow {c : Container K V} {k : K} {v : V} {lv j : ℕ}
    {c2 : Container K V} (hlen : c.levels.length < 2 ^ 31)
    (h : c.allocate k v = .ok ((lv, j), c2)) (hov : isOverflow lv) :
    ∃ hL : levelIdx lv < c.levels.length,
      (c.levels.get ⟨levelIdx lv, hL⟩).allocate k v = none ∧
      (levelIdx lv + 1 = c.levels.length ∨
        (levelIdx lv + 1 < c.levels.length ∧
          (c.level_slots.getD (levelIdx lv + 1) 0 : ℤ) ≤
            c.level_occupancy.getD (levelIdx lv + 1) 0)) := by
  simp only [allocate] at h
  split at h
  · simp at h
  · obtain ⟨hL1, -, halloc1, hsat1⟩ := allocLoop_overflow (by exact hlen) h hov
    exact ⟨hL1, halloc1, hsat1⟩

end Container


/-! ## Counting occupied slots in a bucket -/

/-- Number of occupied (non-`None`) owner records among the `bs` slots of
bucket `b`, i.e. positions `b*bs .. b*bs+bs-1`. -/
def countOcc {α : Type} (l : List (Option α)) (bs b : ℕ) : ℕ :=
  ((Finset.range bs).filter
    (fun i => (l.getD (b * bs + i) none).isSome = true)).card

theorem getD_replicate {α : Type} (n i : ℕ) (d : α) :
    (List.replicate n d).getD i d = d := by
  rcases Nat.lt_or_ge i n with h | h
  · rw [List.getD_eq_getElem _ _ (by simpa using h)]
    simp
  · exact List.getD_eq_default _ _ (by simpa using h)

/-- A bucket never holds more occupied slots than it has slots. -/
theorem countOcc_le {α : Type} (l : List (Option α)) (bs b : ℕ) :
    countOcc l bs b ≤ bs := by
  calc countOcc l bs b ≤ (Finset.range bs).card := Finset.card_filter_le _ _
    _ = bs := Finset.card_range bs

theorem countOcc_replicate {α : Type} (n bs b : ℕ) :
    countOcc (List.replicate n (none : Option α)) bs b = 0 := by
  unfold countOcc
  rw [Finset.card_eq_zero, Finset.filter_eq_empty_iff]
  intro j hj
  rw [getD_replicate]
  simp

/-- Positions within buckets decompose uniquely. -/
theorem pos_decomp {bs b i bb ii : ℕ} (hi : i < bs) (hii : ii < bs)
    (h : b * bs + i = bb * bs + ii) : b = bb ∧ i = ii := by
  have hbs : 0 < bs := by omega
  have h1 : (b * bs + i) / bs = b := by
    rw [Nat.mul_comm, Nat.mul_add_div hbs, Nat.div_eq_of_lt hi, Nat.add_zero]
  have h2 : (bb * bs + ii) / bs = bb := by
    rw [Nat.mul_comm, Nat.mul_add_div hbs, Nat.div_eq_of_lt hii, Nat.add_zero]
  have hb : b = bb := by rw [← h1, h, h2]
  subst hb
  exact ⟨rfl, by omega⟩

/-- Writing into bucket `b` leaves every other bucket's count unchanged. -/
theorem countOcc_set_ne {α : Type} {l : List (Option α)} {bs b bb i : ℕ}
    (hi : i < bs) (hbb : b ≠ bb) (x : Option α) :
    countOcc (l.set (b * bs + i) x) bs bb = countOcc l bs bb := by
  unfold countOcc
  congr 1
  apply Finset.filter_congr
  intro j hj
  rw [Finset.mem_range] at hj
  rw [getD_set_ne _ _ (fun heq => hbb (pos_decomp hi hj heq).1)]

/-- Filling a previously free slot of bucket `b` raises its count by one. -/
theorem countOcc_set_some {α : Type} {l : List (Option α)} {bs b i : ℕ}
    (hi : i < bs) (hpos : b * bs + i < l.length)
    (hold : l.getD (b * bs + i) none = none) (x : α) :
    countOcc (l.set (b * bs + i) (some x)) bs b = countOcc l bs b + 1 := by
  unfold countOcc
  have hfil : (Finset.range bs).filter
      (fun j => (((l.set (b * bs + i) (some x)).getD (b * bs + j) none).isSome
        = true)) =
      insert i ((Finset.range bs).filter
        (fun j => ((l.getD (b * bs + j) none).isSome = true))) := by
    ext j
    simp only [Finset.mem_insert, Finset.mem_filter, Finset.mem_range]
    constructor
    · rintro ⟨hj, hpred⟩
      by_cases hji : j = i
      · exact Or.inl hji
      · right
        refine ⟨hj, ?_⟩
        rwa [getD_set_ne _ _ (by omega)] at hpred
    · rintro (hji | ⟨hj, hpred⟩)
      · subst hji
        refine ⟨hi, ?_⟩
        rw [getD_set_self _ _ hpos]
        rfl
      · by_cases hji : j = i
        · subst hji
          refine ⟨hj, ?_⟩
          rw [getD_set_self _ _ hpos]
          rfl
        · refine ⟨hj, ?_⟩
          rwa [getD_set_ne _ _ (by omega)]
  rw [hfil, Finset.card_insert_of_not_mem]
  simp only [Finset.mem_filter, Finset.mem_range, not_and]
  intro _
  rw [hold]
  simp

/-- Clearing an occupied slot of bucket `b` lowers its count by one. -/
theorem countOcc_set_none {α : Type} {l : List (Option α)} {bs b i : ℕ}
    (hi : i < bs) (hpos : b * bs + i < l.length) {y : α}
    (hold : l.getD (b * bs + i) none = some y) :
    countOcc (l.set (b * bs + i) none) bs b + 1 = countOcc l bs b := by
  have hmem : i ∈ (Finset.range bs).filter
      (fun j => ((l.getD (b * bs + j) none).isSome = true)) := by
    rw [Finset.mem_filter]
    refine ⟨Finset.mem_range.mpr hi, ?_⟩
    show (l.getD (b * bs + i) none).isSome = true
    rw [hold]
    rfl
  have hfil : (Finset.range bs).filter
      (fun j => (((l.set (b * bs + i) none).getD (b * bs + j) none).isSome
        = true)) =
      ((Finset.range bs).filter
        (fun j => ((l.getD (b * bs + j) none).isSome = true))).erase i := by
    ext j
    simp only [Finset.mem_erase, Finset.mem_filter, Finset.mem_range]
    constructor
    · rintro ⟨hj, hpred⟩
      have hji : j ≠ i := by
        intro he
        subst he
        rw [getD_set_self _ _ hpos] at hpred
        simp at hpred
      rw [getD_set_ne _ _ (by omega)] at hpred
      exact ⟨hji, hj, hpred⟩
    · rintro ⟨hji, hj, hpred⟩
      refine ⟨hj, ?_⟩
      rwa [getD_set_ne _ _ (by omega)]
  unfold countOcc
  rw [hfil, Finset.card_erase_of_mem hmem]
  have hpos2 : 0 < ((Finset.range bs).filter
      (fun j => ((l.getD (b * bs + j) none).isSome = true))).card :=
    Finset.card_pos.mpr ⟨i, hmem⟩
  omega

/-- A bucket whose count is below its size has a free slot. -/
theorem exists_none_of_countOcc_lt {α : Type} {l : List (Option α)}
    {bs b : ℕ} (h : countOcc l bs b < bs) :
    ∃ j < bs, l.getD (b * bs + j) none = none := by
  by_contra hno
  push_neg at hno
  have hfull : (Finset.range bs).filter
      (fun j => ((l.getD (b * bs + j) none).isSome = true)) =
      Finset.range bs := by
    rw [Finset.filter_eq_self]
    intro j hj
    rw [Finset.mem_range] at hj
    have hne := hno j hj
    cases hx : l.getD (b * bs + j) none with
    | none => exact absurd hx hne
    | some a => rfl
  rw [countOcc, hfull, Finset.card_range] at h
  omega


/-! ## Reachable states and the occupancy invariant -/

namespace LoadBalancingTable

variable {K V : Type} [DecidableEq K]

/-- States reachable from construction by any sequence of `allocate` and
`free` operations (`dereference` does not mutate). -/
inductive Reachable : LoadBalancingTable K V → Prop
  | init (num_slots bucket_size : ℕ) (hashK : K → ℕ) :
      Reachable (init num_slots bucket_size hashK)
  | alloc {t t2 : LoadBalancingTable K V} {k : K} {v : V} {p : ℕ} :
      Reachable t → t.allocate k v = some (p, t2) → Reachable t2
  | free {t t2 : LoadBalancingTable K V} {k : K} {p : ℕ} :
      Reachable t → t.free k p = .ok t2 → Reachable t2

end LoadBalancingTable

namespace PowerOfTwoChoicesDerefTable

variable {K V : Type} [DecidableEq K]

/-- States reachable from construction by any sequence of `allocate` and
`free` operations (`dereference` does not mutate). -/
inductive Reachable : PowerOfTwoChoicesDerefTable K V → Prop
  | init (num_slots bucket_size : ℕ) (hash1 hash2 : K → ℕ) :
      Reachable (init num_slots bucket_size hash1 hash2)
  | alloc {t t2 : PowerOfTwoChoicesDerefTable K V} {k : K} {v : V} {p : ℕ} :
      Reachable t → t.allocate k v = some (p, t2) → Reachable t2
  | free {t t2 : PowerOfTwoChoicesDerefTable K V} {k : K} {p : ℕ} :
      Reachable t → t.free k p = .ok t2 → Reachable t2

/-- The occupancy invariant: well-formed store lengths, and every in-range
bucket's occupancy counter equals the number of occupied slots in that
bucket. -/
def Inv (t : PowerOfTwoChoicesDerefTable K V) : Prop :=
  t.owner_info.length = t.num_buckets * t.bucket_size ∧
  t.bucket_occupancy.length = t.num_buckets ∧
  0 < t.num_buckets ∧
  ∀ b < t.num_buckets,
    t.bucket_occupancy.getD b 0 = (countOcc t.owner_info t.bucket_size b : ℤ)

theorem bucketIndices_lt {t : PowerOfTwoChoicesDerefTable K V}
    (h : 0 < t.num_buckets) (k : K) :
    (t.bucketIndices k).1 < t.num_buckets ∧
    (t.bucketIndices k).2 < t.num_buckets := by
  simp only [bucketIndices]
  split <;> exact ⟨Nat.mod_lt _ h, Nat.mod_lt _ h⟩

/-- A successfully decoded pointer addresses an in-range slot of an
in-range bucket. -/
theorem decodePointer_ok_shape {t : PowerOfTwoChoicesDerefTable K V}
    {k : K} {p pos : ℕ} (hnb : 0 < t.num_buckets)
    (h : t.decodePointer k p = .ok pos) :
    ∃ b slot, pos = b * t.bucket_size + slot ∧ slot < t.bucket_size ∧
      b < t.num_buckets := by
  simp only [decodePointer] at h
  split at h
  · simp at h
  · rename_i hslot
    injection h with h
    refine ⟨(if p >>> t.p_slot_bits = 0 then (t.bucketIndices k).1
      else (t.bucketIndices k).2), p &&& t.p_slot_mask, h.symm,
      Nat.lt_of_not_le hslot, ?_⟩
    split
    · exact (bucketIndices_lt hnb k).1
    · exact (bucketIndices_lt hnb k).2

/-- The occupancy invariant holds in every reachable state. -/
theorem reachable_inv {t : PowerOfTwoChoicesDerefTable K V}
    (h : Reachable t) : Inv t := by
  induction h with
  | init num_slots bucket_size hash1 hash2 =>
    refine ⟨by simp [init], by simp [init], ?_, ?_⟩
    · simp only [init]
      split <;> omega
    · intro b hb
      simp only [init]
      rw [getD_replicate, countOcc_replicate]
      rfl
  | alloc hreach halloc ih =>
    obtain ⟨hlen, hocclen, hnb, hcnt⟩ := ih
    rename_i t0 t2 k v p
    obtain ⟨i, hocc, hscan, hp, ht2⟩ := p2c_allocate_some halloc
    obtain ⟨hi, hfree, -⟩ := firstNoneIdx_some hscan
    have hch : (t0.chosenBucket k).1 < t0.num_buckets := chosenBucket_fst_lt hnb k
    have hpos : (t0.chosenBucket k).1 * t0.bucket_size + i <
        t0.owner_info.length := by
      rw [hlen]
      calc (t0.chosenBucket k).1 * t0.bucket_size + i
          < (t0.chosenBucket k).1 * t0.bucket_size + t0.bucket_size := by omega
        _ = ((t0.chosenBucket k).1 + 1) * t0.bucket_size := by ring
        _ ≤ t0.num_buckets * t0.bucket_size := Nat.mul_le_mul_right _ (by omega)
    subst ht2
    refine ⟨by simpa using hlen, by simpa using hocclen, hnb, ?_⟩
    intro b hb
    show (t0.bucket_occupancy.set (t0.chosenBucket k).1
        (t0.bucket_occupancy.getD (t0.chosenBucket k).1 0 + 1)).getD b 0 =
      (countOcc (t0.owner_info.set
        ((t0.chosenBucket k).1 * t0.bucket_size + i) (some (k, p)))
        t0.bucket_size b : ℤ)
    by_cases hbc : b = (t0.chosenBucket k).1
    · subst hbc
      rw [getD_set_self _ _ (by rw [hocclen]; exact hch)]
      rw [countOcc_set_some hi hpos hfree]
      rw [hcnt _ hb]
      push_cast
      ring
    · rw [getD_set_ne _ _ (fun he => hbc he.symm)]
      rw [countOcc_set_ne hi (fun he => hbc he.symm)]
      exact hcnt b hb
  | free hreach hfr ih =>
    obtain ⟨hlen, hocclen, hnb, hcnt⟩ := ih
    rename_i t0 t2 k p
    obtain ⟨pos, hdec, howner, ht2⟩ := p2c_free_ok hfr
    obtain ⟨b0, slot, hposeq, hslot, hb0⟩ := decodePointer_ok_shape hnb hdec
    have hposlt : pos < t0.owner_info.length :=
      lt_length_of_getD_eq_some howner rfl
    have hdiv : pos / t0.bucket_size = b0 := by
      rw [hposeq, Nat.mul_comm, Nat.mul_add_div (by omega),
        Nat.div_eq_of_lt hslot, Nat.add_zero]
    subst ht2
    refine ⟨by simpa using hlen, by simpa using hocclen, hnb, ?_⟩
    intro b hb
    show (t0.bucket_occupancy.set (pos / t0.bucket_size)
        (t0.bucket_occupancy.getD (pos / t0.bucket_size) 0 - 1)).getD b 0 =
      (countOcc (t0.owner_info.set pos none) t0.bucket_size b : ℤ)
    rw [hdiv]
    by_cases hbc : b = b0
    · subst hbc
      rw [getD_set_self _ _ (by rw [hocclen]; exact hb0)]
      have hcount := countOcc_set_none hslot (by rw [← hposeq]; exact hposlt)
        (by rw [← hposeq]; exact howner)
      have hc0 := hcnt b hb
      rw [hposeq]
      omega
    · rw [getD_set_ne _ _ (fun he => hbc he.symm)]
      rw [hposeq, countOcc_set_ne hslot (fun he => hbc he.symm)]
      exact hcnt b hb

/-- In an invariant state, `allocate` returns `None` only through the
occupancy pre-check: the scan over a non-full chosen bucket always finds
an empty slot. -/
theorem allocate_none_occ {t : PowerOfTwoChoicesDerefTable K V}
    (hinv : Inv t) {k : K} {v : V} (h : t.allocate k v = none) :
    (t.bucket_size : ℤ) ≤ t.bucket_occupancy.getD (t.chosenBucket k).1 0 := by
  obtain ⟨hlen, hocclen, hnb, hcnt⟩ := hinv
  simp only [allocate] at h
  cases hcb : t.chosenBucket k with
  | mk chosen choice =>
    rw [hcb] at h
    dsimp only at h
    by_cases hocc : (t.bucket_size : ℤ) ≤ t.bucket_occupancy.getD chosen 0
    · simpa [hcb] using hocc
    · exfalso
      rw [if_neg hocc] at h
      cases hscan : firstNoneIdx t.owner_info (chosen * t.bucket_size)
          t.bucket_size with
      | some i => rw [hscan] at h; simp at h
      | none =>
        have hch : chosen < t.num_buckets := by
          have := chosenBucket_fst_lt hnb k
          rwa [hcb] at this
        have hcnteq := hcnt chosen hch
        have hlt : countOcc t.owner_info t.bucket_size chosen <
            t.bucket_size := by
          rw [hcnteq] at hocc
          exact_mod_cast Int.not_le.mp hocc
        obtain ⟨j, hj, hnone⟩ := exists_none_of_countOcc_lt hlt
        have := firstNoneIdx_isSome hj hnone
        rw [hscan] at this
        simp at this

end PowerOfTwoChoicesDerefTable


/-! ## The floating-point construction formulas over the reals

`LoadBalancingTable.__init__` computes
`bucket_size = max(2, ceil((1/delta**2) * math.log2(1/delta)))` in floating
point.  Over `ℝ`, `delta = 0.3` gives exactly 20 (the value is about 19.3,
safely away from an integer boundary, so the double-precision computation
rounds to the same ceiling), and `delta = 0.5` (used for every `_Container`
level) gives exactly 4. -/

theorem logb_ten_thirds_le : Real.logb 2 (10 / 3) ≤ 9 / 5 := by
  rw [Real.logb_le_iff_le_rpow (by norm_num) (by norm_num)]
  have hpow : ((2 : ℝ) ^ ((9 : ℝ) / 5)) ^ (5 : ℕ) = 2 ^ (9 : ℕ) := by
    rw [← Real.rpow_natCast ((2 : ℝ) ^ ((9 : ℝ) / 5)) 5,
      ← Real.rpow_mul (by norm_num)]
    norm_num
  refine le_of_pow_le_pow_left (n := 5) (by norm_num)
    (Real.rpow_nonneg (by norm_num) _) ?_
  rw [hpow]
  norm_num

theorem le_logb_ten_thirds : (12 : ℝ) / 7 ≤ Real.logb 2 (10 / 3) := by
  rw [Real.le_logb_iff_rpow_le (by norm_num) (by norm_num)]
  have hpow : ((2 : ℝ) ^ ((12 : ℝ) / 7)) ^ (7 : ℕ) = 2 ^ (12 : ℕ) := by
    rw [← Real.rpow_natCast ((2 : ℝ) ^ ((12 : ℝ) / 7)) 7,
      ← Real.rpow_mul (by norm_num)]
    norm_num
  refine le_of_pow_le_pow_left (n := 7) (by norm_num) (by norm_num) ?_
  rw [hpow]
  norm_num

/-- `delta = 0.3`: the construction formula for `bucket_size` yields 20. -/
theorem bucketSizeFormula_delta03 :
    max 2 ⌈(1 / (0.3 : ℝ) ^ 2) * Real.logb 2 (1 / (0.3 : ℝ))⌉₊ = 20 := by
  have h1 : (1 / (0.3 : ℝ) ^ 2) = 100 / 9 := by norm_num
  have h2 : (1 / (0.3 : ℝ)) = 10 / 3 := by norm_num
  rw [h1, h2]
  have hup := logb_ten_thirds_le
  have hlo := le_logb_ten_thirds
  have hceil : ⌈(100 / 9 : ℝ) * Real.logb 2 (10 / 3)⌉₊ = 20 := by
    rw [Nat.ceil_eq_iff (by norm_num)]
    constructor
    · push_cast
      nlinarith
    · push_cast
      nlinarith
  rw [hceil]
  rfl

/-- `delta = 0.5` (every `_Container` level): the construction formula for
`bucket_size` yields 4, justifying the constant 4 in `Container.init`. -/
theorem bucketSizeFormula_delta05 :
    max 2 ⌈(1 / (0.5 : ℝ) ^ 2) * Real.logb 2 (1 / (0.5 : ℝ))⌉₊ = 4 := by
  have h1 : (1 / (0.5 : ℝ) ^ 2) = 4 := by norm_num
  have h2 : (1 / (0.5 : ℝ)) = 2 := by norm_num
  rw [h1, h2, Real.logb_self_eq_one (by norm_num)]
  norm_num


/-! ## Isolation after a single allocation into a fresh table -/

namespace LoadBalancingTable

variable {K V : Type} [DecidableEq K]

/-- In a table whose owner records are all empty, one allocation by `k1`
leaves nothing any other key can dereference: `dereference(k2, p)` with
`k2 ≠ k1` hits either a still-empty slot or the lone owner record, which
names `k1`, so it fails either way. -/
theorem single_alloc_isolation {t0 : LoadBalancingTable K V} {k1 k2 : K}
    {v : V} {p : ℕ} {t1 : LoadBalancingTable K V} (hwf : t0.WF)
    (hempty : ∀ i, t0.owner_info.getD i none = none)
    (hne : k2 ≠ k1) (h : t0.allocate k1 v = some (p, t1)) :
    ∃ e, t1.dereference k2 p = .error e := by
  cases hres : t1.dereference k2 p with
  | error e => exact ⟨e, rfl⟩
  | ok w =>
    exfalso
    obtain ⟨-, hown, -⟩ := dereference_ok hres
    obtain ⟨hplt, -⟩ := allocate_some_bounds h
    obtain ⟨-, ht1⟩ := allocate_some h
    obtain ⟨-, hol, hnb⟩ := hwf
    subst ht1
    simp only [bucketIndex] at hown
    have hb1 : t0.hashK k1 % t0.num_buckets < t0.num_buckets := Nat.mod_lt _ hnb
    have hposlt : t0.hashK k1 % t0.num_buckets * t0.bucket_size + p <
        t0.num_buckets * t0.bucket_size := by
      calc t0.hashK k1 % t0.num_buckets * t0.bucket_size + p
          < (t0.hashK k1 % t0.num_buckets + 1) * t0.bucket_size := by
            rw [Nat.add_mul, Nat.one_mul]
            omega
        _ ≤ t0.num_buckets * t0.bucket_size := Nat.mul_le_mul_right _ hb1
    by_cases hpp : t0.hashK k2 % t0.num_buckets * t0.bucket_size + p =
        t0.hashK k1 % t0.num_buckets * t0.bucket_size + p
    · rw [hpp, getD_set_self _ _ (by rw [hol]; exact hposlt)] at hown
      injection hown with hown
      injection hown with ha hb
      exact hne ha.symm
    · rw [getD_set_ne _ _ (fun hq => hpp hq.symm), hempty _] at hown
      exact Option.noConfusion hown

/-- Specialisation to a freshly constructed table: after the very first
allocation, by `k1`, every other key's `dereference` at the same numeric
pointer fails. -/
theorem fresh_isolation {ns bs : ℕ} {hashK : K → ℕ} {k1 k2 : K} {v : V}
    {p : ℕ} {t1 : LoadBalancingTable K V} (hne : k2 ≠ k1)
    (h : (init ns bs hashK : LoadBalancingTable K V).allocate k1 v = some (p, t1)) :
    ∃ e, t1.dereference k2 p = .error e :=
  single_alloc_isolation (init_WF ns bs hashK)
    (fun i => by simp only [init]; exact getD_replicate _ _ _) hne h

/-- Well-formedness is preserved by every reachable state: construction
establishes it and `allocate`/`free` only `set` existing positions. -/
theorem reachable_WF {t : LoadBalancingTable K V} (h : Reachable t) : t.WF := by
  induction h with
  | init ns bs hashK => exact init_WF ns bs hashK
  | alloc hr ha ih =>
    obtain ⟨h1, h2, h3⟩ := ih
    obtain ⟨-, ht2⟩ := allocate_some ha
    subst ht2
    exact ⟨by simpa using h1, by simpa using h2, by simpa using h3⟩
  | free hr hf ih =>
    obtain ⟨h1, h2, h3⟩ := ih
    obtain ⟨-, -, ht2⟩ := free_ok hf
    subst ht2
    exact ⟨by simpa using h1, by simpa using h2, by simpa using h3⟩

end LoadBalancingTable

namespace PowerOfTwoChoicesDerefTable

variable {K V : Type} [DecidableEq K]

/-- In a table whose owner records are all empty, one allocation by `k1`
leaves nothing any other key can dereference. -/
theorem p2c_single_alloc_isolation {t0 : PowerOfTwoChoicesDerefTable K V}
    {k1 k2 : K} {v : V} {p : ℕ} {t1 : PowerOfTwoChoicesDerefTable K V}
    (hwf : t0.WF) (hempty : ∀ i, t0.owner_info.getD i none = none)
    (hne : k2 ≠ k1) (h : t0.allocate k1 v = some (p, t1)) :
    ∃ e, t1.dereference k2 p = .error e := by
  cases hres : t1.dereference k2 p with
  | error e => exact ⟨e, rfl⟩
  | ok w =>
    exfalso
    obtain ⟨pos2, -, hown, -⟩ := p2c_dereference_ok hres
    obtain ⟨i, -, hs, hp, ht1⟩ := p2c_allocate_some h
    obtain ⟨hilt, -, -⟩ := firstNoneIdx_some hs
    obtain ⟨-, hol, hnb⟩ := hwf
    have hch : (t0.chosenBucket k1).1 < t0.num_buckets := chosenBucket_fst_lt hnb k1
    subst ht1
    dsimp only at hown
    have hposlt : (t0.chosenBucket k1).1 * t0.bucket_size + i <
        t0.num_buckets * t0.bucket_size := by
      calc (t0.chosenBucket k1).1 * t0.bucket_size + i
          < ((t0.chosenBucket k1).1 + 1) * t0.bucket_size := by
            rw [Nat.add_mul, Nat.one_mul]
            omega
        _ ≤ t0.num_buckets * t0.bucket_size := Nat.mul_le_mul_right _ hch
    by_cases hpp : pos2 = (t0.chosenBucket k1).1 * t0.bucket_size + i
    · rw [hpp, getD_set_self _ _ (by rw [hol]; exact hposlt)] at hown
      injection hown with hown
      injection hown with ha hb
      exact hne ha.symm
    · rw [getD_set_ne _ _ (fun hq => hpp hq.symm), hempty _] at hown
      exact Option.noConfusion hown

/-- Specialisation to a freshly constructed table: after the very first
allocation, by `k1`, every other key's `dereference` at the same numeric
pointer fails. -/
theorem p2c_fresh_isolation {ns bs : ℕ} {ha hb : K → ℕ} {k1 k2 : K} {v : V}
    {p : ℕ} {t1 : PowerOfTwoChoicesDerefTable K V} (hne : k2 ≠ k1)
    (h : (init ns bs ha hb : PowerOfTwoChoicesDerefTable K V).allocate k1 v =
      some (p, t1)) :
    ∃ e, t1.dereference k2 p = .error e :=
  p2c_single_alloc_isolation (p2c_init_WF ns bs ha hb)
    (fun i => by simp only [init]; exact getD_replicate _ _ _) hne h

end PowerOfTwoChoicesDerefTable


/-! ## Filling one bucket of a `LoadBalancingTable` -/

/-- A free slot in a bucket keeps its occupied count strictly below the
bucket size. -/
theorem countOcc_lt_of_none {α : Type} {l : List (Option α)} {bs b i : ℕ}
    (hi : i < bs) (hnone : l.getD (b * bs + i) none = none) :
    countOcc l bs b < bs := by
  have hsub : ((Finset.range bs).filter
      (fun j => (l.getD (b * bs + j) none).isSome = true)) ⊂ Finset.range bs := by
    rw [Finset.ssubset_iff_of_subset (Finset.filter_subset _ _)]
    refine ⟨i, Finset.mem_range.mpr hi, ?_⟩
    simp only [Finset.mem_filter, Finset.mem_range, not_and]
    intro _
    rw [hnone]
    simp
  calc countOcc l bs b < (Finset.range bs).card := Finset.card_lt_card hsub
    _ = bs := Finset.card_range bs

namespace LoadBalancingTable

variable {K V : Type} [DecidableEq K]

/-- `allocate` into a completely full bucket reports capacity exhaustion
(`None`), and by the shape of `allocate` a `None` result performs no write:
the table is only rebuilt under `some`. -/
theorem allocate_none_of_full {t : LoadBalancingTable K V} {k : K} {v : V}
    (hfull : countOcc t.owner_info t.bucket_size (t.bucketIndex k) =
      t.bucket_size) :
    t.allocate k v = none := by
  simp only [allocate]
  cases hs : firstNoneIdx t.owner_info (t.bucketIndex k * t.bucket_size)
      t.bucket_size with
  | none => rfl
  | some i =>
    exfalso
    obtain ⟨hilt, hfree, -⟩ := firstNoneIdx_some hs
    exact absurd hfull (Nat.ne_of_lt (countOcc_lt_of_none hilt hfree))

/-- Left fold of `allocate` over a list of key/value pairs, failing as soon
as one allocation fails: the shape of the 21-key scenario. -/
def allocAll (t : LoadBalancingTable K V) :
    List (K × V) → Option (LoadBalancingTable K V)
  | [] => some t
  | (k, v) :: rest => (t.allocate k v).bind fun pt => allocAll pt.2 rest

/-- Any sequence of allocations whose keys all hash to bucket `b` succeeds
as long as the bucket has room for all of them, and each allocation adds
exactly one occupied slot to that bucket. -/
theorem allocAll_same_bucket :
    ∀ {kvs : List (K × V)} {t : LoadBalancingTable K V} {b : ℕ},
    t.WF → (∀ kv ∈ kvs, t.bucketIndex kv.1 = b) →
    countOcc t.owner_info t.bucket_size b + kvs.length ≤ t.bucket_size →
    ∃ t2, allocAll t kvs = some t2 ∧ t2.WF ∧
      t2.bucket_size = t.bucket_size ∧ t2.num_buckets = t.num_buckets ∧
      t2.hashK = t.hashK ∧
      countOcc t2.owner_info t2.bucket_size b =
        countOcc t.owner_info t.bucket_size b + kvs.length := by
  intro kvs
  induction kvs with
  | nil =>
    intro t b hwf hb hroom
    exact ⟨t, rfl, hwf, rfl, rfl, rfl, by simp⟩
  | cons kv rest ih =>
    intro t b hwf hb hroom
    obtain ⟨k, v⟩ := kv
    have hbk : t.bucketIndex k = b := hb (k, v) (List.mem_cons_self _ _)
    subst hbk
    obtain ⟨hsl, hol, hnb⟩ := hwf
    have hlt : countOcc t.owner_info t.bucket_size (t.bucketIndex k) <
        t.bucket_size := by
      simp only [List.length_cons] at hroom
      omega
    obtain ⟨j, hj, hjnone⟩ := exists_none_of_countOcc_lt hlt
    obtain ⟨i, hscan⟩ :=
      Option.isSome_iff_exists.mp (firstNoneIdx_isSome hj hjnone)
    obtain ⟨hilt, hifree, -⟩ := firstNoneIdx_some hscan
    set t1 : LoadBalancingTable K V := { t with
      store := t.store.set (t.bucketIndex k * t.bucket_size + i) (some v)
      owner_info := t.owner_info.set (t.bucketIndex k * t.bucket_size + i)
        (some (k, i)) } with ht1def
    have halloc : t.allocate k v = some (i, t1) := by
      rw [ht1def]
      simp only [allocate]
      rw [hscan]
    have hposlt : t.bucketIndex k * t.bucket_size + i <
        t.num_buckets * t.bucket_size := by
      have hbklt : t.bucketIndex k < t.num_buckets := bucketIndex_lt hnb k
      calc t.bucketIndex k * t.bucket_size + i
          < (t.bucketIndex k + 1) * t.bucket_size := by
            rw [Nat.add_mul, Nat.one_mul]
            omega
        _ ≤ t.num_buckets * t.bucket_size := Nat.mul_le_mul_right _ hbklt
    have hwf1 : t1.WF := by
      rw [ht1def]
      exact ⟨by simpa using hsl, by simpa using hol, by simpa using hnb⟩
    have hplus : countOcc t1.owner_info t1.bucket_size (t.bucketIndex k) =
        countOcc t.owner_info t.bucket_size (t.bucketIndex k) + 1 := by
      rw [ht1def]
      show countOcc (t.owner_info.set (t.bucketIndex k * t.bucket_size + i)
          (some (k, i))) t.bucket_size (t.bucketIndex k) =
        countOcc t.owner_info t.bucket_size (t.bucketIndex k) + 1
      exact countOcc_set_some hilt (by rw [hol]; exact hposlt) hifree _
    have hbrest : ∀ kv2 ∈ rest, t1.bucketIndex kv2.1 = t.bucketIndex k := by
      intro kv2 hkv2
      have h2 := hb kv2 (List.mem_cons_of_mem _ hkv2)
      rw [ht1def]
      simpa [bucketIndex] using h2
    have hroom1 : countOcc t1.owner_info t1.bucket_size (t.bucketIndex k) +
        rest.length ≤ t1.bucket_size := by
      have hbseq : t1.bucket_size = t.bucket_size := by rw [ht1def]
      rw [hplus, hbseq]
      simp only [List.length_cons] at hroom
      omega
    obtain ⟨t2, hall, hwf2, hbs2, hnb2, hhash2, hcnt2⟩ := ih hwf1 hbrest hroom1
    refine ⟨t2, ?_, hwf2, ?_, ?_, ?_, ?_⟩
    · simp only [allocAll]
      rw [halloc]
      exact hall
    · exact hbs2.trans (by rw [ht1def])
    · exact hnb2.trans (by rw [ht1def])
    · exact hhash2.trans (by rw [ht1def])
    · rw [hcnt2, hplus]
      simp only [List.length_cons]
      omega

end LoadBalancingTable


/-! ## Concrete scenario instances

The hash roles are salted SHA-256 digests in the Python code; the model
closes over arbitrary functions `K → ℕ`.  The constant-zero hash realises a
full-collision pattern (every key in one container/bucket), and the
identity realizes a two-bucket pattern; both are legitimate instances of
the arbitrary salted hash. -/

/-- A fully colliding hash: every key hashes to 0. -/
def zeroHash : ℕ → ℕ := fun _ => 0

/-- The identity as hash: key `k` hashes to `k`. -/
def idHash : ℕ → ℕ := fun k => k

/-- `VariableSizeDerefTable(n=16)` under a fully colliding hash:
`container_capacity = max(16, int(4*log2(16))) = 16` and
`num_containers = ceil(16/log2(16)) = 4` (both floating-point construction
formulas are exact at these magnitudes). -/
def vst16 : VariableSizeDerefTable ℕ ℕ :=
  VariableSizeDerefTable.init 16 16 4 zeroHash zeroHash

/-- `vst16` after allocating keys `1..m` (each key also its value). -/
def vstAllocSeq : ℕ → Except TPErr (VariableSizeDerefTable ℕ ℕ)
  | 0 => .ok vst16
  | m + 1 => (vstAllocSeq m).bind fun t => (t.allocate (m + 1) (m + 1)).map Prod.snd

/-- The table with keys `1..13` in: key 13 lives in container 0's level-0
overflow array. -/
def vst13 : VariableSizeDerefTable ℕ ℕ := (vstAllocSeq 13).toOption.getD vst16

/-- A capacity-16 `_Container` under a fully colliding hash (what each
`vst16` container is). -/
def cont16 : Container ℕ ℕ := Container.init 16 zeroHash

/-- `cont16` after allocating keys `1..m`. -/
def contAllocSeq : ℕ → Option (Container ℕ ℕ)
  | 0 => some cont16
  | m + 1 => (contAllocSeq m).bind fun c =>
      match c.allocate (m + 1) (m + 1) with
      | .ok (_, c2) => some c2
      | _ => none

/-- The container with keys `1..12` in: levels 0, 1 and 2 saturated under
the colliding hash (4 keys each), so the next allocation overflows. -/
def cont12 : Container ℕ ℕ := (contAllocSeq 12).getD cont16

/-- `cont12` after the overflowing 13th allocation. -/
def cont13 : Container ℕ ℕ :=
  match cont12.allocate 13 13 with
  | .ok (_, c2) => c2
  | _ => cont16

/-- Scenario A: `LoadBalancingTable(num_slots=100, delta=0.3)`, whose
`bucket_size` formula gives 20 (`bucketSizeFormula_delta03`), under a fully
colliding hash. -/
def lbt100 : LoadBalancingTable ℕ ℕ := LoadBalancingTable.init 100 20 zeroHash

/-- The `m` key/value pairs `(1,1), ..., (m,m)` — pairwise distinct keys,
all hashing to bucket 0 of `lbt100` under the colliding hash. -/
def c7Keys (m : ℕ) : List (ℕ × ℕ) := (List.range m).map fun i => (i + 1, i + 1)

/-- Two-bucket `LoadBalancingTable` (bucket size 2) under the identity
hash. -/
def c4T0 : LoadBalancingTable ℕ ℕ := LoadBalancingTable.init 4 2 idHash

/-- `c4T0` after `allocate(1, 42)`: key 1 owns local pointer 0 (bucket 1,
store position 2). -/
def c4T1 : LoadBalancingTable ℕ ℕ := ((c4T0.allocate 1 42).map Prod.snd).getD c4T0

/-- `c4T1` after `allocate(0, 42)`: key 0 also owns local pointer 0 (in
bucket 0). -/
def c4T2 : LoadBalancingTable ℕ ℕ := ((c4T1.allocate 0 42).map Prod.snd).getD c4T1

/-- A small `PowerOfTwoChoicesDerefTable` (two buckets of two slots). -/
def p2cT0 : PowerOfTwoChoicesDerefTable ℕ ℕ :=
  PowerOfTwoChoicesDerefTable.init 4 2 zeroHash zeroHash

/-- `p2cT0` after `allocate(5, 55)` (pointer 0: choice bit 0, slot 0). -/
def p2cT1 : PowerOfTwoChoicesDerefTable ℕ ℕ :=
  ((p2cT0.allocate 5 55).map Prod.snd).getD p2cT0

/-- A tiny `FixedSizeDerefTable`: one-slot primary, so the second
allocation is pushed to the secondary table.  `max_p_bits = max(0, 1+1)+1 = 3`. -/
def fstT0 : FixedSizeDerefTable ℕ ℕ :=
  { primary := LoadBalancingTable.init 1 1 zeroHash
    secondary := PowerOfTwoChoicesDerefTable.init 4 2 zeroHash zeroHash }

/-- `fstT0` after `allocate(7, 70)`: primary origin, pointer 0. -/
def fstT1 : FixedSizeDerefTable ℕ ℕ :=
  ((fstT0.allocate 7 70).map Prod.snd).toOption.getD fstT0

/-- `fstT1` after `allocate(8, 80)`: the primary is full, so the secondary
takes it; pointer `1 <<< 2 ||| 0 = 4` (origin bit set). -/
def fstT2 : FixedSizeDerefTable ℕ ℕ :=
  ((fstT1.allocate 8 80).map Prod.snd).toOption.getD fstT1

/-- `c4T2` after `free(0, 0)`. -/
def c6Lbt : LoadBalancingTable ℕ ℕ := (c4T2.free 0 0).toOption.getD c4T2

/-- `p2cT1` after `free(5, 0)`. -/
def c6P2c : PowerOfTwoChoicesDerefTable ℕ ℕ := (p2cT1.free 5 0).toOption.getD p2cT1

/-- `fstT2` after `free(8, 4)` (a secondary-origin pointer). -/
def c6Fst : FixedSizeDerefTable ℕ ℕ := (fstT2.free 8 4).toOption.getD fstT2

/-- `vst13` after `free(1, 0)` (key 1's entry, container 0, level 0,
slot 0). -/
def c6Vst : VariableSizeDerefTable ℕ ℕ := (vst13.free 1 0).toOption.getD vst13


/-! ## The claims -/

/-- Claim C1 (round trip — refuted on the overflow path; code bug).
For `VariableSizeDerefTable` the round trip fails for pointers produced
via a container's overflow-array path: with 16-capacity containers and a
fully colliding hash, allocating key 13 succeeds through container 0's
level-0 overflow array (the overflow cell really holds `(13, 13)`); the
returned pointer is the packed `(0, 0 ||| 1 <<< 31, 0) = 2^63`; yet
`dereference(13, 2^63)` fails with the invalid-pointer error (`KeyError
"Invalid container index in pointer"`): `_decode_pointer` truncates the
overflow flag — bit 31 of the level word, bit 63 of the packed pointer —
out of the 16-bit level field, corrupting the container index to `2^15`.
For contrast, the round trip does hold in the very same state for key 12's
level-placed pointer `(0, 2, 3)`. -/
theorem claim_C1_roundtrip :
    (vstAllocSeq 12).bind (fun t => (t.allocate 13 13).map Prod.fst) =
      .ok (vstPack 0 (0 ||| 1 <<< 31) 0) ∧
    vstPack 0 (0 ||| 1 <<< 31) 0 = 2 ^ 63 ∧
    (vstAllocSeq 13).map (fun t =>
        ((t.containers.getD 0 cont16).overflow_arrays.getD 0 []).getD 0 none) =
      .ok (some (13, 13)) ∧
    (vstAllocSeq 13).bind (fun t => t.dereference 13 (2 ^ 63)) =
      .error .invalidPointer ∧
    (vstAllocSeq 13).bind (fun t => t.dereference 12 (vstPack 0 2 3)) =
      .ok (some 12) :=
  ⟨rfl, rfl, rfl, rfl, rfl⟩

/-- Claim C2 (decode is a left inverse of the packing — refuted for
overflow pointers; code bug).  The pointer actually returned for the
overflowing 13th allocation is the packed triple `(0, 0 ||| 1 <<< 31, 0)`,
but `_decode_pointer` yields `(2^15, 0, 0)`, not the packed triple: the
overflow flag escapes the 16-bit level field into the container index. -/
theorem claim_C2_decode_left_inverse :
    (vstAllocSeq 12).bind (fun t => (t.allocate 13 13).map Prod.fst) =
      .ok (vstPack 0 (0 ||| 1 <<< 31) 0) ∧
    vstDecodePointer (vstPack 0 (0 ||| 1 <<< 31) 0) = (2 ^ 15, 0, 0) ∧
    ((2 ^ 15 : ℕ), (0 : ℕ), (0 : ℕ)) ≠ (0, 0 ||| 1 <<< 31, 0) :=
  ⟨rfl, rfl, by decide⟩

/-- Claim C3 counterexample: construction rejects nothing.  `vst16`
(n = 16) is constructed with its 4 containers, yet a reachable allocation
returns a packed pointer whose level word `0 ||| 1 <<< 31 ≥ 2^16` exceeds
the 16-bit level field, and decoding silently truncates it — there is no
construction-time failure of any kind in `__init__` (lines 111–121). -/
theorem claim_C3_counterexample :
    vst16.num_containers = 4 ∧ vst16.containers.length = 4 ∧
    (vstAllocSeq 12).bind (fun t => (t.allocate 13 13).map Prod.fst) =
      .ok (vstPack 0 (0 ||| 1 <<< 31) 0) ∧
    2 ^ 16 ≤ 0 ||| 1 <<< 31 ∧
    vstDecodePointer (vstPack 0 (0 ||| 1 <<< 31) 0) ≠ (0, 0 ||| 1 <<< 31, 0) :=
  ⟨rfl, rfl, rfl, by decide, by decide⟩

/-- Claim C3 as amended: `VariableSizeDerefTable.__init__` performs no
validation and never rejects — for every configuration it records the
parameters and builds exactly `num_containers` containers.  What is true
of the field widths instead: a packed pointer whose level fits 16 bits and
whose local field fits 32 bits decodes back exactly, while a level word
carrying the overflow flag (bit 31) always decodes with the flag moved
into the container-index field — silent truncation, never a rejection. -/
theorem claim_C3_no_validation :
    (∀ (K V : Type) [DecidableEq K] (n cc nc : ℕ) (h1 h2 : K → ℕ),
      (VariableSizeDerefTable.init (K := K) (V := V) n cc nc h1 h2).num_containers
          = nc ∧
      (VariableSizeDerefTable.init (K := K) (V := V) n cc nc h1 h2).containers.length
          = nc) ∧
    (∀ ci lv pl : ℕ, lv < 2 ^ 16 → pl < 2 ^ 32 →
      vstDecodePointer (vstPack ci lv pl) = (ci, lv, pl)) ∧
    (∀ ci lv pl : ℕ, lv < 2 ^ 16 → pl < 2 ^ 32 →
      vstDecodePointer (vstPack ci (lv ||| 1 <<< 31) pl) =
        (ci ||| 2 ^ 15, lv, pl)) := by
  refine ⟨?_, ?_, ?_⟩
  · intro K V _ n cc nc h1 h2
    exact ⟨rfl, by simp [VariableSizeDerefTable.init]⟩
  · intro ci lv pl hlv hpl
    exact vstDecodePointer_vstPack_normal hlv hpl
  · intro ci lv pl hlv hpl
    exact vstDecodePointer_vstPack_overflow hlv hpl

/-- Witness for the amended C3 at concrete inputs. -/
theorem claim_C3_no_validation_witness :
    ((VariableSizeDerefTable.init 5 16 3 zeroHash zeroHash :
        VariableSizeDerefTable ℕ ℕ).num_containers = 3 ∧
      (VariableSizeDerefTable.init 5 16 3 zeroHash zeroHash :
        VariableSizeDerefTable ℕ ℕ).containers.length = 3) ∧
    vstDecodePointer (vstPack 2 3 5) = (2, 3, 5) ∧
    vstDecodePointer (vstPack 2 (3 ||| 1 <<< 31) 5) = (2 ||| 2 ^ 15, 3, 5) :=
  ⟨claim_C3_no_validation.1 ℕ ℕ 5 16 3 zeroHash zeroHash,
   claim_C3_no_validation.2.1 2 3 5 (by decide) (by decide),
   claim_C3_no_validation.2.2 2 3 5 (by decide) (by decide)⟩

/-- Claim C4 counterexample: the universally stated isolation is false.
In the two-bucket table `c4T2`, key 0's `allocate(0, 42)` succeeded and
returned pointer 0, that entry is live (its owner record is `(0, 0)`), yet
`dereference(1, 0)` by the other key 1 — `1 ≠ 0`, same numeric pointer —
returns 42, the very value, with no error: key 1 owns its *own* live entry
at the same local pointer in another bucket.  The per-slot owner check
compares `(key, pointer)` only against the addressed slot, so equal local
pointers of different keys are indistinguishable by design. -/
theorem claim_C4_counterexample :
    (c4T1.allocate 0 42).map Prod.fst = some 0 ∧
    (c4T1.allocate 0 42).map Prod.snd = some c4T2 ∧
    c4T2.owner_info.getD 0 none = some (0, 0) ∧
    (1 : ℕ) ≠ 0 ∧
    c4T2.dereference 1 0 = .ok (some 42) :=
  ⟨rfl, rfl, rfl, by decide, rfl⟩

/-- Claim C4 as amended.  What is true: (1, 2) `dereference`/`free` on a
`LoadBalancingTable` succeed only when the addressed slot's recorded
`(owner, pointer)` pair is exactly the caller's `(k, p)`; (3, 4) likewise
for `PowerOfTwoChoicesDerefTable` at the decoded slot; and (5, 6) the
claimed cross-key isolation does hold while *only* the first key's entry
is live: after a single allocation by `k1` into a fresh table, every key
`k2 ≠ k1` fails to dereference `k1`'s pointer.  The original claim's
failure mode needs `k2` to own its own live entry at the same numeric
local pointer (the counterexample). -/
theorem claim_C4_ownership :
    (∀ (K V : Type) [DecidableEq K] (t : LoadBalancingTable K V) (k : K)
      (p : ℕ) (w : Option V), t.dereference k p = .ok w →
      t.owner_info.getD (t.bucketIndex k * t.bucket_size + p) none =
        some (k, p)) ∧
    (∀ (K V : Type) [DecidableEq K] (t t2 : LoadBalancingTable K V) (k : K)
      (p : ℕ), t.free k p = .ok t2 →
      t.owner_info.getD (t.bucketIndex k * t.bucket_size + p) none =
        some (k, p)) ∧
    (∀ (K V : Type) [DecidableEq K] (t : PowerOfTwoChoicesDerefTable K V)
      (k : K) (p : ℕ) (w : Option V), t.dereference k p = .ok w →
      ∃ pos, t.decodePointer k p = .ok pos ∧
        t.owner_info.getD pos none = some (k, p)) ∧
    (∀ (K V : Type) [DecidableEq K] (t t2 : PowerOfTwoChoicesDerefTable K V)
      (k : K) (p : ℕ), t.free k p = .ok t2 →
      ∃ pos, t.decodePointer k p = .ok pos ∧
        t.owner_info.getD pos none = some (k, p)) ∧
    (∀ (K V : Type) [DecidableEq K] (ns bs : ℕ) (hashK : K → ℕ) (k1 k2 : K)
      (v : V) (p : ℕ) (t1 : LoadBalancingTable K V), k2 ≠ k1 →
      (LoadBalancingTable.init ns bs hashK).allocate k1 v = some (p, t1) →
      ∃ e, t1.dereference k2 p = .error e) ∧
    (∀ (K V : Type) [DecidableEq K] (ns bs : ℕ) (ha hb : K → ℕ) (k1 k2 : K)
      (v : V) (p : ℕ) (t1 : PowerOfTwoChoicesDerefTable K V), k2 ≠ k1 →
      (PowerOfTwoChoicesDerefTable.init ns bs ha hb).allocate k1 v =
        some (p, t1) →
      ∃ e, t1.dereference k2 p = .error e) := by
  refine ⟨?_, ?_, ?_, ?_, ?_, ?_⟩
  · intro K V _ t k p w h
    exact (LoadBalancingTable.dereference_ok h).2.1
  · intro K V _ t t2 k p h
    exact (LoadBalancingTable.free_ok h).2.1
  · intro K V _ t k p w h
    obtain ⟨pos, h1, h2, -⟩ := PowerOfTwoChoicesDerefTable.p2c_dereference_ok h
    exact ⟨pos, h1, h2⟩
  · intro K V _ t t2 k p h
    obtain ⟨pos, h1, h2, -⟩ := PowerOfTwoChoicesDerefTable.p2c_free_ok h
    exact ⟨pos, h1, h2⟩
  · intro K V _ ns bs hashK k1 k2 v p t1 hne h
    exact LoadBalancingTable.fresh_isolation hne h
  · intro K V _ ns bs ha hb k1 k2 v p t1 hne h
    exact PowerOfTwoChoicesDerefTable.p2c_fresh_isolation hne h

/-- Witness for the amended C4 at concrete inputs (the same two-bucket
scenario, plus the fresh single-allocation tables). -/
theorem claim_C4_ownership_witness :
    (c4T2.owner_info.getD (c4T2.bucketIndex 1 * c4T2.bucket_size + 0) none =
      some (1, 0)) ∧
    (c4T2.owner_info.getD (c4T2.bucketIndex 0 * c4T2.bucket_size + 0) none =
      some (0, 0)) ∧
    (∃ pos, p2cT1.decodePointer 5 0 = .ok pos ∧
      p2cT1.owner_info.getD pos none = some (5, 0)) ∧
    (∃ pos, p2cT1.decodePointer 5 0 = .ok pos ∧
      p2cT1.owner_info.getD pos none = some (5, 0)) ∧
    (∃ e, c4T1.dereference 0 0 = .error e) ∧
    (∃ e, p2cT1.dereference 6 0 = .error e) :=
  ⟨claim_C4_ownership.1 ℕ ℕ c4T2 1 0 (some 42) rfl,
   claim_C4_ownership.2.1 ℕ ℕ c4T2 c6Lbt 0 0 rfl,
   claim_C4_ownership.2.2.1 ℕ ℕ p2cT1 5 0 (some 55) rfl,
   claim_C4_ownership.2.2.2.1 ℕ ℕ p2cT1 c6P2c 5 0 rfl,
   claim_C4_ownership.2.2.2.2.1 ℕ ℕ 4 2 idHash 1 0 42 0 c4T1 (by decide) rfl,
   claim_C4_ownership.2.2.2.2.2 ℕ ℕ 4 2 zeroHash zeroHash 5 6 55 0 p2cT1
     (by decide) rfl⟩

/-- Claim C5: every pointer a `FixedSizeDerefTable` returns is below
`2 ^ max_p_bits` with `max_p_bits = max(primary_p_bits, secondary_p_bits)
+ 1 = max(primary.p_bits, 1 + secondary.p_slot_bits) + 1`; a pointer the
primary table produced has origin (top) bit 0, and a pointer produced
after the primary failed — i.e. by the secondary — has origin bit 1. -/
theorem claim_C5_pointer_width :
    ∀ (K V : Type) [DecidableEq K] (t : FixedSizeDerefTable K V) (k : K)
      (v : V) (p : ℕ) (t2 : FixedSizeDerefTable K V),
    t.allocate k v = .ok (p, t2) →
    t.max_p_bits = max t.primary.p_bits (1 + t.secondary.p_slot_bits) + 1 ∧
    p < 2 ^ t.max_p_bits ∧
    ((t.primary.allocate k v).isSome = true →
      p.testBit (t.max_p_bits - 1) = false) ∧
    (t.primary.allocate k v = none → p.testBit (t.max_p_bits - 1) = true) := by
  intro K V _ t k v p t2 h
  refine ⟨FixedSizeDerefTable.max_p_bits_eq t, ?_⟩
  rcases FixedSizeDerefTable.allocate_ok h with
    ⟨q, pr2, hpr, hp, -⟩ | ⟨hprN, q, se2, hse, hp, -⟩
  · have hq : q < 2 ^ (t.max_p_bits - 1) :=
      FixedSizeDerefTable.primary_pointer_lt hpr
    subst hp
    refine ⟨?_, ?_, ?_⟩
    · exact lt_of_lt_of_le hq (Nat.pow_le_pow_right (by norm_num) (by omega))
    · intro _
      exact Nat.testBit_lt_two_pow hq
    · intro hN
      rw [hN] at hpr
      exact Option.noConfusion hpr
  · have hq : q < 2 ^ (t.max_p_bits - 1) :=
      FixedSizeDerefTable.secondary_pointer_lt hse
    subst hp
    have hm1 : t.max_p_bits - 1 + 1 = t.max_p_bits :=
      Nat.succ_pred_eq_of_pos (FixedSizeDerefTable.max_p_bits_pos t)
    have hadd : (1 <<< (t.max_p_bits - 1)) ||| q =
        2 ^ (t.max_p_bits - 1) * 1 + q := shiftLeft_or_eq_add hq
    refine ⟨?_, ?_, ?_⟩
    · rw [hadd]
      have h2 : 2 ^ (t.max_p_bits - 1) * 2 = 2 ^ t.max_p_bits := by
        rw [← pow_succ, hm1]
      omega
    · intro hS
      rw [hprN] at hS
      exact absurd hS (by simp)
    · intro _
      rw [hadd, Nat.testBit_mul_pow_two_add 1 hq]
      simp

/-- Witness for C5: the primary-origin pointer 0 of `fstT0` and the
secondary-origin pointer 4 of `fstT1` (whose primary is full). -/
theorem claim_C5_pointer_width_witness :
    (fstT0.max_p_bits =
        max fstT0.primary.p_bits (1 + fstT0.secondary.p_slot_bits) + 1 ∧
      0 < 2 ^ fstT0.max_p_bits ∧
      ((fstT0.primary.allocate 7 70).isSome = true →
        Nat.testBit 0 (fstT0.max_p_bits - 1) = false) ∧
      (fstT0.primary.allocate 7 70 = none →
        Nat.testBit 0 (fstT0.max_p_bits - 1) = true)) ∧
    (fstT1.max_p_bits =
        max fstT1.primary.p_bits (1 + fstT1.secondary.p_slot_bits) + 1 ∧
      4 < 2 ^ fstT1.max_p_bits ∧
      ((fstT1.primary.allocate 8 80).isSome = true →
        Nat.testBit 4 (fstT1.max_p_bits - 1) = false) ∧
      (fstT1.primary.allocate 8 80 = none →
        Nat.testBit 4 (fstT1.max_p_bits - 1) = true)) :=
  ⟨claim_C5_pointer_width ℕ ℕ fstT0 7 70 0 fstT1 rfl,
   claim_C5_pointer_width ℕ ℕ fstT1 8 80 4 fstT2 rfl⟩

/-- Claim C6: for every table kind, after a successful `free(k, p)` both
`dereference(k, p)` and a second `free(k, p)` fail — with the
not-allocated `KeyError` — the freed cell is cleared and the same pointer
decodes to the same cell again. -/
theorem claim_C6_post_free :
    (∀ (K V : Type) [DecidableEq K] (t t2 : LoadBalancingTable K V) (k : K)
      (p : ℕ), t.free k p = .ok t2 →
      t2.dereference k p = .error .notAllocated ∧
      t2.free k p = .error .notAllocated) ∧
    (∀ (K V : Type) [DecidableEq K] (t t2 : PowerOfTwoChoicesDerefTable K V)
      (k : K) (p : ℕ), t.free k p = .ok t2 →
      t2.dereference k p = .error .notAllocated ∧
      t2.free k p = .error .notAllocated) ∧
    (∀ (K V : Type) [DecidableEq K] (t t2 : FixedSizeDerefTable K V) (k : K)
      (p : ℕ), t.free k p = .ok t2 →
      t2.dereference k p = .error .notAllocated ∧
      t2.free k p = .error .notAllocated) ∧
    (∀ (K V : Type) [DecidableEq K] (t t2 : VariableSizeDerefTable K V)
      (k : K) (p : ℕ), t.free k p = .ok t2 →
      t2.dereference k p = .error .notAllocated ∧
      t2.free k p = .error .notAllocated) :=
  ⟨fun K V _ t t2 k p h => LoadBalancingTable.free_then_fail h,
   fun K V _ t t2 k p h => PowerOfTwoChoicesDerefTable.p2c_free_then_fail h,
   fun K V _ t t2 k p h => FixedSizeDerefTable.fst_free_then_fail h,
   fun K V _ t t2 k p h => VariableSizeDerefTable.vst_free_then_fail h⟩

/-- Witness for C6, one freed entry per table kind. -/
theorem claim_C6_post_free_witness :
    (c6Lbt.dereference 0 0 = .error .notAllocated ∧
      c6Lbt.free 0 0 = .error .notAllocated) ∧
    (c6P2c.dereference 5 0 = .error .notAllocated ∧
      c6P2c.free 5 0 = .error .notAllocated) ∧
    (c6Fst.dereference 8 4 = .error .notAllocated ∧
      c6Fst.free 8 4 = .error .notAllocated) ∧
    (c6Vst.dereference 1 0 = .error .notAllocated ∧
      c6Vst.free 1 0 = .error .notAllocated) :=
  ⟨claim_C6_post_free.1 ℕ ℕ c4T2 c6Lbt 0 0 rfl,
   claim_C6_post_free.2.1 ℕ ℕ p2cT1 c6P2c 5 0 rfl,
   claim_C6_post_free.2.2.1 ℕ ℕ fstT2 c6Fst 8 4 rfl,
   claim_C6_post_free.2.2.2 ℕ ℕ vst13 c6Vst 1 0 rfl⟩

/-- The 20-key-filled Scenario-A table: all of bucket 0 occupied. -/
def lbt100Full : LoadBalancingTable ℕ ℕ :=
  (lbt100.allocAll (c7Keys 20)).getD lbt100

/-- Claim C7 (Scenario A).  (i) The δ = 0.3 bucket-size formula yields 20
over ℝ; (ii) `LoadBalancingTable(num_slots=100, delta=0.3)` is constructed
with `bucket_size = 20`, `num_buckets = ceil(100/20) = 5` and backing
stores of length 100; (iii) in general any list of key/value pairs whose
keys all hash to one bucket allocates in full whenever the bucket has room
for all of them; (iv) an allocation aimed at a completely full bucket
returns no pointer — and by the shape of `allocate` a `None` result
performs no write at all, the updated stores existing only under `some`,
exactly as the Python loop returns `None` before its only writes; (v)
concretely, keys `1..20` (pairwise distinct, all in bucket 0 under the
colliding hash) all allocate in `lbt100`, and the 21st call then fails. -/
theorem claim_C7_bucket_scenario :
    max 2 ⌈(1 / (0.3 : ℝ) ^ 2) * Real.logb 2 (1 / (0.3 : ℝ))⌉₊ = 20 ∧
    (lbt100.bucket_size = 20 ∧ lbt100.num_buckets = 5 ∧
      lbt100.store.length = 100 ∧ lbt100.owner_info.length = 100) ∧
    (∀ (K V : Type) [DecidableEq K] (ns bs : ℕ) (hashK : K → ℕ) (b : ℕ)
      (kvs : List (K × V)),
      (∀ kv ∈ kvs,
        (LoadBalancingTable.init ns bs hashK :
          LoadBalancingTable K V).bucketIndex kv.1 = b) →
      kvs.length ≤ bs →
      ((LoadBalancingTable.init ns bs hashK :
        LoadBalancingTable K V).allocAll kvs).isSome = true) ∧
    (∀ (K V : Type) [DecidableEq K] (t : LoadBalancingTable K V) (k : K)
      (v : V), countOcc t.owner_info t.bucket_size (t.bucketIndex k) =
        t.bucket_size → t.allocate k v = none) ∧
    (lbt100.allocAll (c7Keys 20)).isSome = true ∧
    lbt100.allocAll (c7Keys 21) = none := by
  refine ⟨bucketSizeFormula_delta03, ⟨rfl, rfl, rfl, rfl⟩, ?_, ?_, rfl, rfl⟩
  · intro K V _ ns bs hashK b kvs hb hlen
    have h0 : countOcc (LoadBalancingTable.init ns bs hashK :
        LoadBalancingTable K V).owner_info bs b = 0 := by
      simp only [LoadBalancingTable.init]
      exact countOcc_replicate _ _ _
    have hroom : countOcc (LoadBalancingTable.init ns bs hashK :
        LoadBalancingTable K V).owner_info bs b + kvs.length ≤ bs := by
      omega
    obtain ⟨t2, hall, -⟩ := LoadBalancingTable.allocAll_same_bucket
      (LoadBalancingTable.init_WF ns bs hashK) hb hroom
    rw [hall]
    rfl
  · intro K V _ t k v h
    exact LoadBalancingTable.allocate_none_of_full h

/-- Witness for C7's general parts, at the Scenario-A table itself. -/
theorem claim_C7_bucket_scenario_witness :
    (lbt100.allocAll (c7Keys 20)).isSome = true ∧
    lbt100Full.allocate 21 21 = none :=
  ⟨claim_C7_bucket_scenario.2.2.1 ℕ ℕ 100 20 zeroHash 0 (c7Keys 20)
    (by decide) (by decide),
   claim_C7_bucket_scenario.2.2.2.1 ℕ ℕ lbt100Full 21 21 (by decide)⟩

/-- Claim C8: in every state reachable by any sequence of
`allocate`/`free` from construction, a `LoadBalancingTable` stays
well-formed and no bucket holds more than `bucket_size` occupied slots —
a bucket *is* its `bucket_size` consecutive positions, so its occupied
count is structurally bounded — and no `PowerOfTwoChoicesDerefTable`
bucket-occupancy counter exceeds `bucket_size` (for in-range buckets
because the counter equals the occupied-slot count of that bucket in
every reachable state, `reachable_inv`). -/
theorem claim_C8_capacity_bound :
    (∀ (K V : Type) [DecidableEq K] (t : LoadBalancingTable K V),
      t.Reachable → t.WF ∧
        ∀ b, countOcc t.owner_info t.bucket_size b ≤ t.bucket_size) ∧
    (∀ (K V : Type) [DecidableEq K] (t : PowerOfTwoChoicesDerefTable K V),
      t.Reachable →
        ∀ b, t.bucket_occupancy.getD b 0 ≤ (t.bucket_size : ℤ)) := by
  constructor
  · intro K V _ t hr
    exact ⟨LoadBalancingTable.reachable_WF hr, fun b => countOcc_le _ _ _⟩
  · intro K V _ t hr b
    obtain ⟨hlen, hocclen, hnb, hcnt⟩ :=
      PowerOfTwoChoicesDerefTable.reachable_inv hr
    by_cases hb : b < t.num_buckets
    · rw [hcnt b hb]
      exact_mod_cast countOcc_le _ _ _
    · rw [List.getD_eq_default _ _ (by rw [hocclen]; omega)]
      positivity

/-- Witness for C8 at reachable tables of both kinds. -/
theorem claim_C8_capacity_bound_witness :
    (c4T0.WF ∧
      ∀ b, countOcc c4T0.owner_info c4T0.bucket_size b ≤ c4T0.bucket_size) ∧
    (∀ b, p2cT1.bucket_occupancy.getD b 0 ≤ (p2cT1.bucket_size : ℤ)) :=
  ⟨claim_C8_capacity_bound.1 ℕ ℕ c4T0
    (LoadBalancingTable.Reachable.init 4 2 idHash),
   claim_C8_capacity_bound.2 ℕ ℕ p2cT1
    (PowerOfTwoChoicesDerefTable.Reachable.alloc (k := 5) (v := 55) (p := 0)
      (PowerOfTwoChoicesDerefTable.Reachable.init 4 2 zeroHash zeroHash) rfl)⟩

/-- Claim C9: a `_Container` allocation lands in level `li`'s overflow
array (overflow flag set in the returned level word) only when, at this
very call, level `li`'s own `LoadBalancingTable` allocation failed and
either `li` is the last level or level `li + 1` is already saturated —
its occupancy counter at least its slot count.  (The `2^31` bound keeps
level indices clear of the flag bit; real containers have a handful of
levels.) -/
theorem claim_C9_overflow_policy :
    ∀ (K V : Type) [DecidableEq K] (c : Container K V) (k : K) (v : V)
      (lv j : ℕ) (c2 : Container K V),
    c.levels.length < 2 ^ 31 →
    c.allocate k v = .ok ((lv, j), c2) →
    Container.isOverflow lv →
    ∃ hL : Container.levelIdx lv < c.levels.length,
      (c.levels.get ⟨Container.levelIdx lv, hL⟩).allocate k v = none ∧
      (Container.levelIdx lv + 1 = c.levels.length ∨
        (Container.levelIdx lv + 1 < c.levels.length ∧
          (c.level_slots.getD (Container.levelIdx lv + 1) 0 : ℤ) ≤
            c.level_occupancy.getD (Container.levelIdx lv + 1) 0)) :=
  fun K V _ c k v lv j c2 hlen h hov => Container.allocate_overflow hlen h hov

/-- Witness for C9: the 13th allocation into the capacity-16 container
overflows at level 0 — level 0's table is full and level 1 is saturated
(occupancy 8 against 8 slots). -/
theorem claim_C9_overflow_policy_witness :
    cont12.allocate 13 13 = .ok ((0 ||| 1 <<< 31, 0), cont13) ∧
    ∃ hL : Container.levelIdx (0 ||| 1 <<< 31) < cont12.levels.length,
      (cont12.levels.get
        ⟨Container.levelIdx (0 ||| 1 <<< 31), hL⟩).allocate 13 13 = none ∧
      (Container.levelIdx (0 ||| 1 <<< 31) + 1 = cont12.levels.length ∨
        (Container.levelIdx (0 ||| 1 <<< 31) + 1 < cont12.levels.length ∧
          (cont12.level_slots.getD
              (Container.levelIdx (0 ||| 1 <<< 31) + 1) 0 : ℤ) ≤
            cont12.level_occupancy.getD
              (Container.levelIdx (0 ||| 1 <<< 31) + 1) 0)) :=
  ⟨rfl, claim_C9_overflow_policy ℕ ℕ cont12 13 13 (0 ||| 1 <<< 31) 0 cont13
    (by decide) rfl (by decide)⟩

/-- Claim C10: in every reachable `PowerOfTwoChoicesDerefTable` state,
every in-range bucket's `bucket_occupancy` counter equals the number of
occupied owner records in that bucket; consequently `allocate` returns
`None` only through the occupancy pre-check — the chosen bucket's counter
already at `bucket_size` — never through the post-scan fall-through
(line 180, "Should not be reached"), since a below-capacity counter
means a genuinely free slot, which the scan finds. -/
theorem claim_C10_occupancy_sync :
    ∀ (K V : Type) [DecidableEq K] (t : PowerOfTwoChoicesDerefTable K V),
    t.Reachable →
    (∀ b < t.num_buckets, t.bucket_occupancy.getD b 0 =
      (countOcc t.owner_info t.bucket_size b : ℤ)) ∧
    (∀ (k : K) (v : V), t.allocate k v = none →
      (t.bucket_size : ℤ) ≤ t.bucket_occupancy.getD (t.chosenBucket k).1 0) := by
  intro K V _ t hr
  have hinv := PowerOfTwoChoicesDerefTable.reachable_inv hr
  exact ⟨hinv.2.2.2,
    fun k v h => PowerOfTwoChoicesDerefTable.allocate_none_occ hinv h⟩

/-- Witness for C10 at the reachable one-allocation table `p2cT1`. -/
theorem claim_C10_occupancy_sync_witness :
    (∀ b < p2cT1.num_buckets, p2cT1.bucket_occupancy.getD b 0 =
      (countOcc p2cT1.owner_info p2cT1.bucket_size b : ℤ)) ∧
    (∀ (k v : ℕ), p2cT1.allocate k v = none →
      (p2cT1.bucket_size : ℤ) ≤
        p2cT1.bucket_occupancy.getD (p2cT1.chosenBucket k).1 0) :=
  claim_C10_occupancy_sync ℕ ℕ p2cT1
    (PowerOfTwoChoicesDerefTable.Reachable.alloc (k := 5) (v := 55) (p := 0)
      (PowerOfTwoChoicesDerefTable.Reachable.init 4 2 zeroHash zeroHash) rfl)

end TinyPoint
